import Mathlib

/-!
Verification of the zodirectus code generator (Directus → Zod/TypeScript).

Strings of the TypeScript source are modelled as `List Char` (`Str`); all
definitions are executable transcriptions of the corresponding source
functions (ZodGenerator, TypeGenerator, Zodirectus in `src/`).
-/

namespace Zodirectus

abbrev Str := List Char

/-- Boolean test that `w` starts with `s` (JS `String.startsWith`). -/
def leadsWith : Str → Str → Bool
  | _, [] => true
  | [], _ :: _ => false
  | a :: w, b :: s => a == b && leadsWith w s

/-- Boolean test that `w` ends with `s` (JS `String.endsWith`). -/
def trailsWith (w s : Str) : Bool :=
  leadsWith w.reverse s.reverse

/-- Boolean substring test (JS `String.includes`). -/
def hasSub : Str → Str → Bool
  | w, s =>
    leadsWith w s ||
      match w with
      | [] => false
      | _ :: t => hasSub t s

/-- JS `str.slice(0, str.length - n)`: drop the last `n` characters. -/
def dropEnd (n : Nat) (w : Str) : Str :=
  w.take (w.length - n)

/- Character-list literals used by the naming helpers. -/
def litY : Str := ('y' : Char) :: []
def litS : Str := ('s' : Char) :: []
def litSh : Str := ['s', 'h']
def litCh : Str := ['c', 'h']
def litX : Str := ('x' : Char) :: []
def litZ : Str := ('z' : Char) :: []
def litIes : Str := ['i', 'e', 's']
def litEs : Str := ['e', 's']
def litSes : Str := ['s', 'e', 's']
def litShes : Str := ['s', 'h', 'e', 's']
def litChes : Str := ['c', 'h', 'e', 's']
def litXes : Str := ['x', 'e', 's']
def litZes : Str := ['z', 'e', 's']

/-- `Zodirectus.toSingular` (src/unnamed/part_003, lines 711-744): convert a
plural word to singular by generic suffix rules. -/
def toSingular (word : Str) : Str :=
  if trailsWith word litIes then
    dropEnd 3 word ++ litY
  else if trailsWith word litSes || trailsWith word litShes ||
      trailsWith word litChes || trailsWith word litXes || trailsWith word litZes then
    dropEnd 2 word
  else if trailsWith word litS && word.length > 1 then
    dropEnd 1 word
  else
    word

/-- `Zodirectus.singularToPlural` (src/unnamed/part_003, lines 746-776):
convert a singular word to plural by generic suffix rules. -/
def singularToPlural (word : Str) : Str :=
  if trailsWith word litY then
    dropEnd 1 word ++ litIes
  else if trailsWith word litS || trailsWith word litSh || trailsWith word litCh ||
      trailsWith word litX || trailsWith word litZ then
    word ++ litEs
  else
    word ++ litS

/-- JS `[...new Set(l)]`: deduplicate keeping first occurrences in order. -/
def dedupKeep {α : Type} [DecidableEq α] (l : List α) : List α :=
  l.foldl (fun acc v => if v ∈ acc then acc else acc ++ [v]) []

/-- JS `str.replace(pat, repl)` for plain-string patterns: replace the first
occurrence only. -/
def replaceFirst (w pat repl : Str) : Str :=
  if leadsWith w pat then repl ++ w.drop pat.length
  else
    match w with
    | [] => []
    | c :: rest => c :: replaceFirst rest pat repl

/-- JS `str.toLowerCase()` (ASCII). -/
def lowerStr (s : Str) : Str := s.map Char.toLower

/-- Separator characters of the `/[-_\s]+/` regex used by `toPascalCase`. -/
def isSepChar (c : Char) : Bool :=
  c == '-' || c == '_' || c == ' ' || c == '\t' || c == '\n' || c == '\r'

/-- JS `str.split(/[-_\s]+/)`: split on maximal separator runs, keeping empty
pieces at the string's edges exactly as JS does. -/
def splitSeps : Str → Str → List Str
  | [], cur => [cur.reverse]
  | c :: rest, cur =>
    if isSepChar c then cur.reverse :: splitSeps (rest.dropWhile isSepChar) []
    else splitSeps rest (c :: cur)
  termination_by s _ => s.length
  decreasing_by
  · simp only [List.length_cons]
    exact Nat.lt_succ_of_le (List.dropWhile_sublist _).length_le
  · simp

/-- `toPascalCase` (identical private helper of ZodGenerator, TypeGenerator and
Zodirectus): split on `[-_\s]+`, capitalise each word's first letter and
lowercase the rest, and join. -/
def toPascalCase (str : Str) : Str :=
  ((splitSeps str []).map fun word =>
    match word with
    | [] => []
    | c :: rest => c.toUpper :: rest.map Char.toLower).foldl (· ++ ·) []

/-- regex `/([a-z])([A-Z])/g` replacement `'$1-$2'`: insert a dash between a
lowercase letter and a following uppercase letter. -/
def insertDashes : Str → Str
  | [] => []
  | [c] => [c]
  | a :: b :: rest =>
    if a.isLower && b.isUpper then a :: '-' :: insertDashes (b :: rest)
    else a :: insertDashes (b :: rest)

/-- regex `/[\s_]+/g` replacement `'-'`: collapse whitespace/underscore runs
into a single dash. -/
def dashSeps : Str → Str
  | [] => []
  | c :: rest =>
    if c == '_' || c == ' ' || c == '\t' || c == '\n' || c == '\r' then
      '-' :: dashSeps (rest.dropWhile fun d =>
        d == '_' || d == ' ' || d == '\t' || d == '\n' || d == '\r')
    else c :: dashSeps rest
  termination_by s => s.length
  decreasing_by
  · simp only [List.length_cons]
    exact Nat.lt_succ_of_le (List.dropWhile_sublist _).length_le
  · simp

/-- `Zodirectus.toKebabCase` (src/unnamed/part_003, lines 694-699). -/
def toKebabCase (str : Str) : Str :=
  lowerStr (dashSeps (insertDashes str))

/-! Data model of the Directus metadata consumed by the generators
(`src/types`).  Choice values can be plain strings or objects carrying
`value`/`text` and, for checkbox trees, `children`. -/

inductive ChoiceV where
  | str (s : Str)
  | obj (value : Option Str) (text : Option Str) (children : List ChoiceV)

/-- Sub-field descriptor of a repeater field's `options.fields`. -/
structure SubField where
  field : Str
  type : Str

/-- `field.meta.options` as used by the generators. -/
structure FieldOptions where
  choices : Option (List ChoiceV)
  options : Option (List ChoiceV)
  suggestions : Option (List Str)
  presets : Option (List Str)
  fields : Option (List SubField)

def emptyOptions : FieldOptions := ⟨none, none, none, none, none⟩

/-- `field.meta` as used by the generators. -/
structure FieldMeta where
  hidden : Option Bool
  required : Option Bool
  special : Option (List Str)
  interface : Option Str
  options : Option FieldOptions

/-- `field.schema` (database-level column description). -/
structure FieldSchemaMeta where
  data_type : Option Str
  is_nullable : Option Bool
  is_primary_key : Option Bool
  foreign_key_table : Option Str

/-- one Directus field descriptor. -/
structure DirectusField where
  field : Str
  type : Str
  meta : Option FieldMeta
  schema : Option FieldSchemaMeta

/-- a collection together with its fields. -/
structure DirectusCollectionWithFields where
  collection : Str
  fields : List DirectusField

/-- the generator configuration (after the constructor's defaulting). -/
structure ZodirectusConfig where
  generateSchemas : Bool
  generateTypes : Bool
  collections : Option (List Str)
  includeSystemCollections : Bool
  customFieldMappings : List (Str × Str)

/-- one entry of the `GeneratedSchema[]` result list. -/
structure GeneratedSchema where
  collectionName : Str
  schema : Option Str
  type : Option Str
deriving DecidableEq

/-! Accessors mirroring the JS optional-chaining/defaulting idioms. -/

/-- JS `a || b` where `a` is an optional string (undefined and `''` both fall
through to `b`). -/
def jsOrStr (a : Option Str) (b : Str) : Str :=
  match a with
  | some s => if s = [] then b else s
  | none => b

/-- `field.schema?.data_type || field.type`. -/
def directusTypeOf (f : DirectusField) : Str :=
  jsOrStr (f.schema.bind FieldSchemaMeta.data_type) f.type

/-- `field.meta?.special || []`. -/
def specialOf (f : DirectusField) : List Str :=
  (f.meta.bind FieldMeta.special).getD []

/-- `field.meta?.interface || ''`. -/
def interfaceOf (f : DirectusField) : Str :=
  (f.meta.bind FieldMeta.interface).getD []

/-- `field.meta?.options || {}`. -/
def optionsOf (f : DirectusField) : FieldOptions :=
  (f.meta.bind FieldMeta.options).getD emptyOptions

/-- `field.meta?.required ?? false`. -/
def isRequiredOf (f : DirectusField) : Bool :=
  (f.meta.bind FieldMeta.required).getD false

/-- `field.schema?.is_nullable ?? true`. -/
def isNullableOf (f : DirectusField) : Bool :=
  (f.schema.bind FieldSchemaMeta.is_nullable).getD true

/-- `field.meta?.hidden` truthiness. -/
def isHiddenOf (f : DirectusField) : Bool :=
  (f.meta.bind FieldMeta.hidden).getD false

/-- record lookup `customFieldMappings?.[k]`. -/
def lookupStr (k : Str) : List (Str × Str) → Option Str
  | [] => none
  | (a, b) :: rest => if a = k then some b else lookupStr k rest

/-! Rendering of JS template interpolation for choice values.  A JS choice is
either a string or an object; `choice.value` of a string choice is
`undefined`, and an object without a truthy `value` is interpolated as
`[object Object]`. -/

def quoteStr (s : Str) : Str := '"' :: (s ++ ['"'])

/-- extracted `value` of a choice in the enum branches of `getZodType`:
either a string or the object itself. -/
inductive ChoiceValue where
  | s (v : Str)
  | objectRepr
deriving DecidableEq

def extractValue (c : ChoiceV) : ChoiceValue :=
  match c with
  | .str s => .s s
  | .obj v _ _ =>
    match v with
    | some val => if val = [] then .objectRepr else .s val
    | none => .objectRepr

/-- JS `parseInt(x, 10)` on our modelled values: optional sign followed by a
nonempty digit prefix (leading whitespace skipped); `none` models `NaN`. -/
def jsParseInt (s : Str) : Option Int :=
  let s := s.dropWhile fun c => c == ' ' || c == '\t' || c == '\n' || c == '\r'
  let signed : Bool × Str :=
    match s with
    | '-' :: rest => (true, rest)
    | '+' :: rest => (false, rest)
    | _ => (false, s)
  let digits := signed.2.takeWhile Char.isDigit
  if digits = [] then none
  else
    let n : Nat := digits.foldl (fun acc c => acc * 10 + (c.toNat - 48)) 0
    some (if signed.1 then -(n : Int) else (n : Int))

def intToStr (n : Int) : Str := (toString n).toList

/-- JS `parseFloat(x)` rendered back to a string, for ordinary decimal
literals (optional sign, digits, optional fractional part); `none` models
`NaN`.  Normalisation mirrors JS number-to-string for these values. -/
def jsParseFloatRender (s : Str) : Option Str :=
  let s := s.dropWhile fun c => c == ' ' || c == '\t' || c == '\n' || c == '\r'
  let signed : Bool × Str :=
    match s with
    | '-' :: rest => (true, rest)
    | '+' :: rest => (false, rest)
    | _ => (false, s)
  let intDigits := signed.2.takeWhile Char.isDigit
  let rest := signed.2.drop intDigits.length
  let fracDigits : Str :=
    match rest with
    | '.' :: r => r.takeWhile Char.isDigit
    | _ => []
  if intDigits = [] && fracDigits = [] then none
  else
    let intPart := intDigits.dropWhile (· == '0')
    let intPart := if intPart = [] then ['0'] else intPart
    let fracPart := (fracDigits.reverse.dropWhile (· == '0')).reverse
    let isZero := intPart = ['0'] && fracPart = []
    let core := if fracPart = [] then intPart else intPart ++ '.' :: fracPart
    some (if signed.1 && !isZero then '-' :: core else core)

/-- value conversion of the enum/choice branches of `getZodType`
(src/unnamed/part_002, lines 800-812 and 832-844). -/
def convertChoiceValue (directusType : Str) (v : ChoiceValue) : Str :=
  if directusType = "integer".toList || directusType = "bigint".toList then
    match v with
    | .s str =>
      match jsParseInt str with
      | some n => intToStr n
      | none => str
    | .objectRepr => "[object Object]".toList
  else if directusType = "decimal".toList || directusType = "float".toList ||
      directusType = "real".toList then
    match v with
    | .s str =>
      match jsParseFloatRender str with
      | some r => r
      | none => str
    | .objectRepr => "[object Object]".toList
  else if directusType = "boolean".toList then
    if v = .s ("true".toList) then "true".toList else "false".toList
  else
    quoteStr (match v with | .s str => str | .objectRepr => "[object Object]".toList)

/-! ZodGenerator (src/unnamed/part_002, second document): field classifiers
and schema-text generators. -/

/-- `ZodGenerator.isDividerField` (also defined identically in TypeGenerator):
name starts with `divider-`, or interface is `divider`, or type is `divider`. -/
def isDividerField (f : DirectusField) : Bool :=
  leadsWith f.field ("divider-".toList) ||
  interfaceOf f = "divider".toList ||
  f.type = "divider".toList

/-- `ZodGenerator.isFileField`. -/
def isFileField (f : DirectusField) : Bool :=
  "file".toList ∈ specialOf f ||
  "files".toList ∈ specialOf f ||
  interfaceOf f = "file".toList ||
  interfaceOf f = "file-image".toList ||
  interfaceOf f = "files".toList

/-- `ZodGenerator.generateFileSchema`. -/
def generateFileSchema (f : DirectusField) : Str :=
  if interfaceOf f = "files".toList || "files".toList ∈ specialOf f then
    "z.array(DrxFileSchema)".toList
  else if interfaceOf f = "file-image".toList then
    "DrxImageFileSchema".toList
  else
    "DrxFileSchema".toList

/-- `ZodGenerator.isRadioButtonField`. -/
def isRadioButtonField (f : DirectusField) : Bool :=
  interfaceOf f = "select-radio".toList

/-- `choice.value` as read by the radio/dropdown branches (undefined for
string choices, interpolated as `"undefined"`). -/
def radioValue (c : ChoiceV) : Option Str :=
  match c with
  | .str _ => none
  | .obj v _ _ => v

def renderRadioValue (o : Option Str) : Str :=
  quoteStr (o.getD ("undefined".toList))

/-- `ZodGenerator.generateRadioButtonSchema`. -/
def generateRadioButtonSchema (f : DirectusField) : Str :=
  let choices := ((optionsOf f).choices).getD []
  if choices.length > 0 then
    let values := choices.map radioValue
    let uniqueValues := dedupKeep values
    let valuesString := List.intercalate (", ".toList) (uniqueValues.map renderRadioValue)
    "z.enum([".toList ++ valuesString ++ "])".toList
  else
    "z.string()".toList

/-- `ZodGenerator.isDropdownMultipleField`. -/
def isDropdownMultipleField (f : DirectusField) : Bool :=
  interfaceOf f = "select-multiple-dropdown".toList

/-- `ZodGenerator.generateDropdownMultipleSchema`. -/
def generateDropdownMultipleSchema (f : DirectusField) : Str :=
  let choices := ((optionsOf f).choices).getD []
  if choices.length > 0 then
    let values := choices.map radioValue
    let uniqueValues := dedupKeep values
    let valuesString := List.intercalate (", ".toList) (uniqueValues.map renderRadioValue)
    "z.array(z.enum([".toList ++ valuesString ++ "]))".toList
  else
    "z.array(z.string())".toList

/-- `ZodGenerator.isCheckboxTreeField`. -/
def isCheckboxTreeField (f : DirectusField) : Bool :=
  interfaceOf f = "select-multiple-checkbox-tree".toList

/-- `extractValues` helper of `generateCheckboxTreeSchema`: collect truthy
`value` entries of the choice tree, recursing into `children`. -/
def extractValues : List ChoiceV → List Str
  | [] => []
  | c :: rest =>
    (match c with
     | .str _ => []
     | .obj v _ ch =>
       (match v with
        | some s => if s = [] then [] else [s]
        | none => []) ++ extractValues ch) ++ extractValues rest

/-- `ZodGenerator.generateCheckboxTreeSchema`. -/
def generateCheckboxTreeSchema (f : DirectusField) : Str :=
  let choices := ((optionsOf f).choices).getD []
  if choices.length > 0 then
    let allValues := extractValues choices
    let uniqueValues := dedupKeep allValues
    let valuesString := List.intercalate (", ".toList) (uniqueValues.map quoteStr)
    "z.array(z.enum([".toList ++ valuesString ++ "]))".toList
  else
    "z.array(z.string())".toList

/-- `ZodGenerator.isDateTimeField` (src/unnamed/part_002, lines 439-460):
matches on the data type, the interface, or the lowercased field NAME
(contains `date` or `time`, or equals `ts`). -/
def isDateTimeField (f : DirectusField) : Bool :=
  let dt := directusTypeOf f
  let i := interfaceOf f
  let fieldName := lowerStr f.field
  (dt = "timestamp".toList || dt = "datetime".toList || dt = "date".toList ||
    dt = "time".toList) ||
  (i = "datetime".toList || i = "date".toList || i = "time".toList) ||
  (hasSub fieldName ("date".toList) || hasSub fieldName ("time".toList) ||
    fieldName = "ts".toList)

/-- `ZodGenerator.generateDateTimeSchema`. -/
def generateDateTimeSchema (f : DirectusField) : Str :=
  let dt := directusTypeOf f
  let i := interfaceOf f
  let fieldName := lowerStr f.field
  if dt = "date".toList || i = "date".toList || fieldName = "date".toList then
    "z.string().date()".toList
  else if dt = "time".toList || i = "time".toList || fieldName = "time".toList then
    "z.string().time()".toList
  else if dt = "timestamp".toList || dt = "datetime".toList || i = "datetime".toList ||
      hasSub fieldName ("datetime".toList) || fieldName = "ts".toList then
    "z.string().datetime()".toList
  else
    "z.string().datetime()".toList

/-- `ZodGenerator.isAutocompleteField`. -/
def isAutocompleteField (f : DirectusField) : Bool :=
  interfaceOf f = "autocomplete".toList

/-- `ZodGenerator.generateAutocompleteSchema`. -/
def generateAutocompleteSchema (f : DirectusField) : Str :=
  let suggestions := ((optionsOf f).suggestions).getD []
  if suggestions.length > 0 then
    let s := List.intercalate (", ".toList) (suggestions.map quoteStr)
    "z.enum([".toList ++ s ++ "])".toList
  else
    "z.string()".toList

/-- `ZodGenerator.isTagField`. -/
def isTagField (f : DirectusField) : Bool :=
  "cast-json".toList ∈ specialOf f && interfaceOf f = "tags".toList

/-- `ZodGenerator.generateTagSchema`. -/
def generateTagSchema (f : DirectusField) : Str :=
  let presets := ((optionsOf f).presets).getD []
  if presets.length > 0 then
    let s := List.intercalate (", ".toList) (presets.map quoteStr)
    "z.array(z.enum([".toList ++ s ++ "]))".toList
  else
    "z.array(z.string())".toList

/-- `ZodGenerator.isRepeaterField`. -/
def isRepeaterField (f : DirectusField) : Bool :=
  "cast-json".toList ∈ specialOf f && interfaceOf f = "list".toList &&
    (((optionsOf f).fields).getD []).length > 0

/-- `ZodGenerator.getZodTypeForSubField`. -/
def getZodTypeForSubField (fieldType : Str) : Str :=
  if fieldType ∈ ["integer".toList, "bigint".toList, "smallint".toList,
      "tinyint".toList] then "z.number().int()".toList
  else if fieldType ∈ ["decimal".toList, "float".toList, "double".toList] then
    "z.number()".toList
  else if fieldType = "boolean".toList then "z.boolean()".toList
  else if fieldType ∈ ["varchar".toList, "char".toList, "text".toList,
      "longtext".toList, "character varying".toList] then "z.string()".toList
  else if fieldType = "date".toList then "z.string().date()".toList
  else if fieldType ∈ ["datetime".toList, "timestamp".toList] then
    "z.string().datetime()".toList
  else if fieldType = "time".toList then "z.string().time()".toList
  else if fieldType = "uuid".toList then "z.string().uuid()".toList
  else if fieldType = "json".toList then "z.any()".toList
  else "z.string()".toList

/-- `ZodGenerator.generateRepeaterSchema`. -/
def generateRepeaterSchema (f : DirectusField) : Str :=
  let repeaterFields := ((optionsOf f).fields).getD []
  if repeaterFields.length = 0 then
    "z.array(z.any())".toList
  else
    let subFieldSchemas := repeaterFields.map fun sf =>
      sf.field ++ ": ".toList ++ getZodTypeForSubField sf.type
    let subFieldsString := List.intercalate (",\n    ".toList) subFieldSchemas
    "z.array(z.object(\x7b\n    ".toList ++ subFieldsString ++ "\n\x7d))".toList

/-- `ZodGenerator.isRelationField` (same body in TypeGenerator). -/
def isRelationField (f : DirectusField) : Bool :=
  "m2o".toList ∈ specialOf f ||
  "o2m".toList ∈ specialOf f ||
  "m2a".toList ∈ specialOf f ||
  hasSub (interfaceOf f) ("m2o".toList) ||
  hasSub (interfaceOf f) ("o2m".toList) ||
  hasSub (interfaceOf f) ("m2a".toList)

/-- `ZodGenerator.getRelatedCollectionName` (same body in TypeGenerator): the
foreign-key table for m2o relations; for o2m only the hard-coded
`activity_logs` pattern. -/
def getRelatedCollectionName (f : DirectusField) : Option Str :=
  let special := specialOf f
  let fkt := jsOrStr (f.schema.bind FieldSchemaMeta.foreign_key_table) []
  if "m2o".toList ∈ special && fkt ≠ [] then
    some fkt
  else if "o2m".toList ∈ special then
    if f.field = "activity_logs".toList then some ("audit_activity_logs".toList)
    else none
  else
    none

/-- extracted value of the dropdown/select `options.options` branch: a truthy
`value` wins, then a truthy `text`, else the object itself. -/
def extractValueWithText (c : ChoiceV) : ChoiceValue :=
  match c with
  | .str s => .s s
  | .obj v t _ =>
    match v with
    | some val =>
      if val = [] then
        match t with
        | some tx => if tx = [] then .objectRepr else .s tx
        | none => .objectRepr
      else .s val
    | none =>
      match t with
      | some tx => if tx = [] then .objectRepr else .s tx
      | none => .objectRepr

/-- tail switch of `ZodGenerator.getZodType` (src/unnamed/part_002, lines
868-920): map a Directus data type to a Zod type string, consulting
`customFieldMappings` before the `z.string()` default. -/
def zodSwitch (cfg : ZodirectusConfig) (directusType : Str) : Str :=
  if directusType = "uuid".toList then "z.string().uuid()".toList
  else if directusType ∈ ["varchar".toList, "char".toList, "text".toList,
      "longtext".toList, "character varying".toList] then "z.string()".toList
  else if directusType ∈ ["integer".toList, "bigint".toList, "smallint".toList,
      "tinyint".toList] then "z.number().int()".toList
  else if directusType ∈ ["decimal".toList, "float".toList, "double".toList] then
    "z.number()".toList
  else if directusType = "boolean".toList then "z.boolean()".toList
  else if directusType = "date".toList then "z.string().date()".toList
  else if directusType ∈ ["datetime".toList, "timestamp".toList] then
    "z.string().datetime()".toList
  else if directusType = "time".toList then "z.string().time()".toList
  else if directusType = "json".toList then "z.any()".toList
  else if directusType = "geometry".toList then "z.any()".toList
  else if directusType = "binary".toList then "z.string()".toList
  else
    match lookupStr directusType cfg.customFieldMappings with
    | some m => if m = [] then "z.string()".toList else m
    | none => "z.string()".toList

/-- `ZodGenerator.getZodType` (src/unnamed/part_002, lines 720-921), with the
handlers tried in source order and the relation branch falling through when no
related collection or relation kind applies. -/
def getZodType (cfg : ZodirectusConfig) (f : DirectusField) : Str :=
  let directusType := directusTypeOf f
  let special := specialOf f
  let options := optionsOf f
  if isFileField f then generateFileSchema f
  else if isRadioButtonField f then generateRadioButtonSchema f
  else if isDropdownMultipleField f then generateDropdownMultipleSchema f
  else if isCheckboxTreeField f then generateCheckboxTreeSchema f
  else if isDateTimeField f then generateDateTimeSchema f
  else if isAutocompleteField f then generateAutocompleteSchema f
  else if isTagField f then generateTagSchema f
  else if isRepeaterField f then generateRepeaterSchema f
  else
    let relationResult : Option Str :=
      if isRelationField f then
        match getRelatedCollectionName f with
        | some relatedCollection =>
          let relatedSchemaName :=
            "Drx".toList ++ toSingular (toPascalCase relatedCollection) ++
              "Schema".toList
          if "m2o".toList ∈ special then some relatedSchemaName
          else if "o2m".toList ∈ special then
            some ("z.array(".toList ++ relatedSchemaName ++ ")".toList)
          else if "m2a".toList ∈ special then
            some ("z.array(".toList ++ relatedSchemaName ++ ")".toList)
          else none
        | none => none
      else none
    match relationResult with
    | some r => r
    | none =>
      let choices := options.choices.getD []
      if choices.length > 0 then
        let cs := List.intercalate (", ".toList)
          ((choices.map extractValue).map (convertChoiceValue directusType))
        "z.enum([".toList ++ cs ++ "])".toList
      else
        let opts := options.options.getD []
        if opts.length > 0 then
          let cs := List.intercalate (", ".toList)
            ((opts.map extractValueWithText).map (convertChoiceValue directusType))
          "z.enum([".toList ++ cs ++ "])".toList
        else if "uuid".toList ∈ special then "z.string().uuid()".toList
        else if "date-created".toList ∈ special ||
            "date-updated".toList ∈ special then "z.string().datetime()".toList
        else if "user-created".toList ∈ special ||
            "user-updated".toList ∈ special then "z.string()".toList
        else if "sort".toList ∈ special then "z.number().int()".toList
        else zodSwitch cfg directusType

/-- `ZodGenerator.generateFieldSchema` (src/unnamed/part_002, lines 694-715):
`name: type`, then `.nullable()` when nullable and not required, then
`.optional()` when not required. -/
def generateFieldSchema (cfg : ZodirectusConfig) (f : DirectusField) : Str :=
  let zodType := getZodType cfg f
  let isRequired := isRequiredOf f
  let isNullable := isNullableOf f
  let schema := f.field ++ ": ".toList ++ zodType
  let schema := if isNullable && !isRequired then schema ++ ".nullable()".toList
    else schema
  if !isRequired then schema ++ ".optional()".toList else schema

/-- system fields considered by `getFieldsToOmitForCreate`. -/
def sysFields : List Str :=
  ["user_created".toList, "date_created".toList, "user_updated".toList,
    "date_updated".toList]

/-- `ZodGenerator.getFieldsToOmitForCreate` (src/unnamed/part_002, lines
286-303): always omit `id`, and each system field exactly when it exists in
the (filtered) field list.  The `hasIdField` argument is unused in the
source as well. -/
def getFieldsToOmitForCreate (fields : List DirectusField)
    (_hasIdField : Bool) : List Str :=
  "id".toList :: sysFields.filter fun sf => fields.any fun f => f.field == sf

/-- filtered field list of `generateSchema`: all fields except dividers. -/
def filteredFieldsOf (c : DirectusCollectionWithFields) : List DirectusField :=
  c.fields.filter fun f => !isDividerField f

/-- `generateSchema`'s check whether an `id` field exists after filtering. -/
def hasIdFieldOf (c : DirectusCollectionWithFields) : Bool :=
  (filteredFieldsOf c).any fun f => f.field == "id".toList

/-- field-schema line inserted when a collection has no `id` field. -/
def idLine : Str := "id: z.string().uuid().optional()".toList

/-- field lines of the base schema, with the artificial `id` line unshifted
when the collection has no `id` field. -/
def fieldsListOf (cfg : ZodirectusConfig) (c : DirectusCollectionWithFields) :
    List Str :=
  let fields := (filteredFieldsOf c).map (generateFieldSchema cfg)
  if hasIdFieldOf c then fields else idLine :: fields

/-- singular PascalCase name of a collection, as used for schema names. -/
def singularPascal (name : Str) : Str :=
  toSingular (toPascalCase name)

/-- schema constant name `Drx<Singular>Schema`. -/
def schemaNameOf (c : DirectusCollectionWithFields) : Str :=
  "Drx".toList ++ singularPascal c.collection ++ "Schema".toList

/-- joined field lines of the base schema. -/
def fieldsStringOf (cfg : ZodirectusConfig) (c : DirectusCollectionWithFields) :
    Str :=
  List.intercalate (",\n    ".toList) (fieldsListOf cfg c)

/-- joined omit lines of the Create schema. -/
def omitFieldsStringOf (c : DirectusCollectionWithFields) : Str :=
  List.intercalate (",\n".toList)
    ((getFieldsToOmitForCreate (filteredFieldsOf c) (hasIdFieldOf c)).map
      fun f => "    ".toList ++ f ++ ": true".toList)

/-- lazy-schema text produced by `generateSchema` for collections in a
circular dependency (src/unnamed/part_002, lines 232-256): base, Create,
Update and Get schemas all as `z.lazy(...)` annotated `z.ZodType<any>`. -/
def lazySchemaText (cfg : ZodirectusConfig) (c : DirectusCollectionWithFields) :
    Str :=
  let schemaName := schemaNameOf c
  let fieldsString := fieldsStringOf cfg c
  let baseSchema := "export const ".toList ++ schemaName ++
    ": z.ZodType<any> = z.lazy(() => z.object(\x7b\n    ".toList ++ fieldsString ++
    "\n\x7d));".toList
  let createSchemaName := replaceFirst schemaName ("Schema".toList)
    ("CreateSchema".toList)
  let createSchema := "export const ".toList ++ createSchemaName ++
    ": z.ZodType<any> = z.lazy(() => (".toList ++ schemaName ++
    " as z.ZodObject<any>).omit(\x7b\n".toList ++ omitFieldsStringOf c ++
    "\n\x7d));".toList
  let updateSchemaName := replaceFirst schemaName ("Schema".toList)
    ("UpdateSchema".toList)
  let updateSchema := "export const ".toList ++ updateSchemaName ++
    ": z.ZodType<any> = z.lazy(() => (".toList ++ schemaName ++
    " as z.ZodObject<any>).partial().required(\x7b\n    id: true\n\x7d));".toList
  let getSchemaName := replaceFirst schemaName ("Schema".toList)
    ("GetSchema".toList)
  let getSchema := "export const ".toList ++ getSchemaName ++
    ": z.ZodType<any> = z.lazy(() => ".toList ++ schemaName ++ ");".toList
  baseSchema ++ "\n\n".toList ++ createSchema ++ "\n\n".toList ++
    updateSchema ++ "\n\n".toList ++ getSchema

/-- plain-schema text produced by `generateSchema` for collections outside
circular dependencies (src/unnamed/part_002, lines 257-282): a `z.object`
base schema and `.omit`/`.partial()`-derived Create/Update/Get schemas. -/
def plainSchemaText (cfg : ZodirectusConfig) (c : DirectusCollectionWithFields) :
    Str :=
  let schemaName := schemaNameOf c
  let fieldsString := fieldsStringOf cfg c
  let baseSchema := "export const ".toList ++ schemaName ++
    " = z.object(\x7b\n    ".toList ++ fieldsString ++ "\n\x7d);".toList
  let createSchemaName := replaceFirst schemaName ("Schema".toList)
    ("CreateSchema".toList)
  let createSchema := "export const ".toList ++ createSchemaName ++
    " = ".toList ++ schemaName ++ ".omit(\x7b\n".toList ++ omitFieldsStringOf c ++
    "\n\x7d);".toList
  let updateSchemaName := replaceFirst schemaName ("Schema".toList)
    ("UpdateSchema".toList)
  let updateSchema := "export const ".toList ++ updateSchemaName ++
    " = ".toList ++ schemaName ++ ".partial().required(\x7b\n    id: true\n\x7d);".toList
  let getSchemaName := replaceFirst schemaName ("Schema".toList)
    ("GetSchema".toList)
  let getSchema := "export const ".toList ++ getSchemaName ++ " = ".toList ++
    schemaName ++ ";".toList
  baseSchema ++ "\n\n".toList ++ createSchema ++ "\n\n".toList ++
    updateSchema ++ "\n\n".toList ++ getSchema

/-- `ZodGenerator.generateSchema` (src/unnamed/part_002, lines 214-283). -/
def generateSchema (cfg : ZodirectusConfig) (c : DirectusCollectionWithFields)
    (isCircularDependency : Bool) : Str :=
  if isCircularDependency then lazySchemaText cfg c else plainSchemaText cfg c

/-! TypeGenerator (src/unnamed/part_001). -/

/-- tail switch of `TypeGenerator.getTypeScriptType` (default `any`). -/
def tsSwitch (cfg : ZodirectusConfig) (directusType : Str) : Str :=
  if directusType = "uuid".toList then "string".toList
  else if directusType ∈ ["varchar".toList, "char".toList, "text".toList,
      "longtext".toList, "character varying".toList] then "string".toList
  else if directusType ∈ ["integer".toList, "bigint".toList, "smallint".toList,
      "tinyint".toList] then "number".toList
  else if directusType ∈ ["decimal".toList, "float".toList, "double".toList] then
    "number".toList
  else if directusType = "boolean".toList then "boolean".toList
  else if directusType = "date".toList then "string".toList
  else if directusType ∈ ["datetime".toList, "timestamp".toList] then
    "string".toList
  else if directusType = "time".toList then "string".toList
  else if directusType = "json".toList then "any".toList
  else if directusType = "geometry".toList then "any".toList
  else if directusType = "binary".toList then "string".toList
  else
    match lookupStr directusType cfg.customFieldMappings with
    | some m => if m = [] then "any".toList else m
    | none => "any".toList

/-- choice rendering of `TypeGenerator.getTypeScriptType`'s `choices` branch
(always quoted; objects without truthy `value` interpolate the object). -/
def tsChoiceRender (c : ChoiceV) : Str :=
  match c with
  | .str s => quoteStr s
  | .obj v _ _ =>
    match v with
    | some val =>
      if val = [] then quoteStr ("[object Object]".toList) else quoteStr val
    | none => quoteStr ("[object Object]".toList)

/-- choice rendering of `TypeGenerator.getTypeScriptType`'s `options` branch
(truthy `value`, then truthy `text`, else the object). -/
def tsOptionRender (c : ChoiceV) : Str :=
  match extractValueWithText c with
  | .s v => quoteStr v
  | .objectRepr => quoteStr ("[object Object]".toList)

/-- `TypeGenerator.getTypeScriptType` (src/unnamed/part_001, lines 116-245):
relations first, then choices/options unions, then special flags, then the
type switch. -/
def getTypeScriptType (cfg : ZodirectusConfig) (f : DirectusField) : Str :=
  let directusType := directusTypeOf f
  let special := specialOf f
  let options := optionsOf f
  let relationResult : Option Str :=
    if isRelationField f then
      match getRelatedCollectionName f with
      | some relatedCollection =>
        let relatedTypeName := "Drs".toList ++ toPascalCase relatedCollection
        if "m2o".toList ∈ special then some relatedTypeName
        else if "o2m".toList ∈ special then some (relatedTypeName ++ "[]".toList)
        else if "m2a".toList ∈ special then some (relatedTypeName ++ "[]".toList)
        else none
      | none => none
    else none
  match relationResult with
  | some r => r
  | none =>
    let choices := options.choices.getD []
    if choices.length > 0 then
      List.intercalate (" | ".toList) (choices.map tsChoiceRender)
    else
      let opts := options.options.getD []
      if opts.length > 0 then
        List.intercalate (" | ".toList) (opts.map tsOptionRender)
      else if "uuid".toList ∈ special then "string".toList
      else if "date-created".toList ∈ special ||
          "date-updated".toList ∈ special then "string".toList
      else if "user-created".toList ∈ special ||
          "user-updated".toList ∈ special then "string".toList
      else if "sort".toList ∈ special then "number".toList
      else tsSwitch cfg directusType

/-- `TypeGenerator.generateFieldType` (src/unnamed/part_001, lines 95-111):
`name`, a `?` marker exactly when the field is not required, and the
TypeScript type. -/
def generateFieldType (cfg : ZodirectusConfig) (f : DirectusField) : Str :=
  let tsType := getTypeScriptType cfg f
  let isRequired := isRequiredOf f
  let t := f.field
  let t := if !isRequired then t ++ "?".toList else t
  t ++ ": ".toList ++ tsType

/-- `TypeGenerator.generateType` (src/unnamed/part_001, lines 16-28): the
`Drs<Pascal>` interface over the non-hidden, non-divider fields. -/
def generateType (cfg : ZodirectusConfig) (c : DirectusCollectionWithFields) :
    Str :=
  let typeName := "Drs".toList ++ toPascalCase c.collection
  let fields := List.intercalate (";\n  ".toList)
    ((c.fields.filter fun f => !isHiddenOf f && !isDividerField f).map
      (generateFieldType cfg))
  "export interface ".toList ++ typeName ++ " \x7b\n  ".toList ++ fields ++
    ";\n\x7d".toList

/-! Basic facts about the string helpers. -/

lemma leadsWith_iff (s w : Str) : leadsWith w s = true ↔ ∃ t, w = s ++ t := by
  induction s generalizing w with
  | nil => simp [leadsWith]
  | cons b s ih =>
    cases w with
    | nil => simp [leadsWith]
    | cons a w =>
      simp only [leadsWith, Bool.and_eq_true, beq_iff_eq, ih, List.cons_append,
        List.cons.injEq]
      constructor
      · rintro ⟨rfl, t, rfl⟩; exact ⟨t, rfl, rfl⟩
      · rintro ⟨t, rfl, rfl⟩; exact ⟨rfl, t, rfl⟩

lemma trailsWith_iff (s w : Str) : trailsWith w s = true ↔ ∃ t, w = t ++ s := by
  unfold trailsWith
  rw [leadsWith_iff]
  constructor
  · rintro ⟨t, ht⟩
    refine ⟨t.reverse, ?_⟩
    have := congrArg List.reverse ht
    simpa using this
  · rintro ⟨t, rfl⟩
    exact ⟨t.reverse, by simp⟩

lemma trailsWith_append (t s : Str) : trailsWith (t ++ s) s = true :=
  (trailsWith_iff s (t ++ s)).2 ⟨t, rfl⟩

lemma dropEnd_append (t s : Str) : dropEnd s.length (t ++ s) = t := by
  unfold dropEnd
  rw [List.length_append, Nat.add_sub_cancel, List.take_left]

lemma getLast?_of_trailsWith {w s : Str} (h : trailsWith w s = true) (hs : s ≠ []) :
    w.getLast? = s.getLast? := by
  obtain ⟨t, rfl⟩ := (trailsWith_iff s w).1 h
  rw [List.getLast?_append]
  cases h2 : s.getLast? with
  | none => exact absurd (List.getLast?_eq_none_iff.mp h2) hs
  | some a => rfl

/-- helper: a word that ends in a three-letter suffix, viewed after appending
the plural marker `"s"`. -/
lemma trailsWith_of_append_eq {w u : Str} {s₂ s₃ : Str}
    (h : w ++ s₂ = u ++ (s₃ ++ s₂)) : trailsWith w s₃ = true := by
  have hw : w = u ++ s₃ := List.append_cancel_right (by rw [h, List.append_assoc])
  exact hw ▸ trailsWith_append u s₃

lemma filter_insert_of_neg {α : Type} (p : α → Bool) (pre post : List α) (f : α)
    (h : p f = false) :
    (pre ++ f :: post).filter p = (pre ++ post).filter p := by
  simp [List.filter_append, List.filter_cons, h]

/-- congruence: the Zod schema text depends only on the collection name and
the divider-filtered field list. -/
lemma generateSchema_congr (cfg : ZodirectusConfig) (n : Str)
    (l₁ l₂ : List DirectusField) (lazy : Bool)
    (hf : filteredFieldsOf ⟨n, l₁⟩ = filteredFieldsOf ⟨n, l₂⟩) :
    generateSchema cfg ⟨n, l₁⟩ lazy = generateSchema cfg ⟨n, l₂⟩ lazy := by
  simp only [generateSchema, lazySchemaText, plainSchemaText, schemaNameOf,
    fieldsStringOf, fieldsListOf, hasIdFieldOf, omitFieldsStringOf, hf]

/-- C8: divider fields (name starting `divider-`, interface `divider`, or type
`divider`) never contribute to the generated Zod schema or TypeScript
interface: inserting one anywhere leaves both outputs unchanged. -/
theorem c8_divider_fields_never_appear (cfg : ZodirectusConfig) (n : Str)
    (pre post : List DirectusField) (f : DirectusField) (lazy : Bool)
    (h : isDividerField f = true) :
    generateSchema cfg ⟨n, pre ++ f :: post⟩ lazy =
      generateSchema cfg ⟨n, pre ++ post⟩ lazy ∧
    generateType cfg ⟨n, pre ++ f :: post⟩ = generateType cfg ⟨n, pre ++ post⟩ := by
  constructor
  · apply generateSchema_congr
    simp only [filteredFieldsOf]
    exact filter_insert_of_neg _ pre post f (by simp [h])
  · simp only [generateType]
    rw [filter_insert_of_neg _ pre post f (by simp [h])]

/-- C8 witness: inserting a concrete divider field into a concrete collection
leaves both generated texts unchanged. -/
theorem c8_witness :
    generateSchema ⟨true, true, none, false, []⟩
        ⟨("books").toList,
          [⟨("title").toList, ("string").toList, none, none⟩,
           ⟨("divider-x").toList, ("alias").toList, none, none⟩]⟩ false =
      generateSchema ⟨true, true, none, false, []⟩
        ⟨("books").toList, [⟨("title").toList, ("string").toList, none, none⟩]⟩
        false ∧
    generateType ⟨true, true, none, false, []⟩
        ⟨("books").toList,
          [⟨("title").toList, ("string").toList, none, none⟩,
           ⟨("divider-x").toList, ("alias").toList, none, none⟩]⟩ =
      generateType ⟨true, true, none, false, []⟩
        ⟨("books").toList, [⟨("title").toList, ("string").toList, none, none⟩]⟩ :=
  c8_divider_fields_never_appear ⟨true, true, none, false, []⟩ (("books").toList)
    [⟨("title").toList, ("string").toList, none, none⟩] []
    ⟨("divider-x").toList, ("alias").toList, none, none⟩ false (by decide)

/-- C9: when a collection has no `id` field the schema's first field line is
the inserted `id: z.string().uuid().optional()`; the Create schema always
omits `id`; and each of the four system fields is omitted exactly when it
exists among the collection's (filtered) fields. -/
theorem c9_id_and_create_omissions (cfg : ZodirectusConfig)
    (c : DirectusCollectionWithFields) :
    (hasIdFieldOf c = false → (fieldsListOf cfg c).head? = some idLine) ∧
    ("id").toList ∈ getFieldsToOmitForCreate (filteredFieldsOf c) (hasIdFieldOf c) ∧
    ∀ sf ∈ sysFields,
      (sf ∈ getFieldsToOmitForCreate (filteredFieldsOf c) (hasIdFieldOf c) ↔
        (filteredFieldsOf c).any (fun f => f.field == sf) = true) := by
  refine ⟨?_, ?_, ?_⟩
  · intro h
    simp [fieldsListOf, h]
  · simp [getFieldsToOmitForCreate]
  · intro sf hsf
    fin_cases hsf <;>
      simp [getFieldsToOmitForCreate, sysFields, List.mem_filter]

/-- C9 witness: the theorem applied to a concrete collection without an `id`
field (system field `user_created` present). -/
theorem c9_witness :
    (fieldsListOf ⟨true, true, none, false, []⟩
        ⟨("notes").toList,
          [⟨("body").toList, ("string").toList, none, none⟩,
           ⟨("user_created").toList, ("string").toList, none, none⟩]⟩).head? =
      some idLine ∧
    ("id").toList ∈ getFieldsToOmitForCreate
      (filteredFieldsOf ⟨("notes").toList,
        [⟨("body").toList, ("string").toList, none, none⟩,
         ⟨("user_created").toList, ("string").toList, none, none⟩]⟩)
      (hasIdFieldOf ⟨("notes").toList,
        [⟨("body").toList, ("string").toList, none, none⟩,
         ⟨("user_created").toList, ("string").toList, none, none⟩]⟩) ∧
    (("user_created").toList ∈ getFieldsToOmitForCreate
        (filteredFieldsOf ⟨("notes").toList,
          [⟨("body").toList, ("string").toList, none, none⟩,
           ⟨("user_created").toList, ("string").toList, none, none⟩]⟩)
        (hasIdFieldOf ⟨("notes").toList,
          [⟨("body").toList, ("string").toList, none, none⟩,
           ⟨("user_created").toList, ("string").toList, none, none⟩]⟩) ↔
      (filteredFieldsOf ⟨("notes").toList,
        [⟨("body").toList, ("string").toList, none, none⟩,
         ⟨("user_created").toList, ("string").toList, none, none⟩]⟩).any
        (fun f => f.field == ("user_created").toList) = true) :=
  ⟨(c9_id_and_create_omissions ⟨true, true, none, false, []⟩
      ⟨("notes").toList,
        [⟨("body").toList, ("string").toList, none, none⟩,
         ⟨("user_created").toList, ("string").toList, none, none⟩]⟩).1 (by decide),
   (c9_id_and_create_omissions ⟨true, true, none, false, []⟩
      ⟨("notes").toList,
        [⟨("body").toList, ("string").toList, none, none⟩,
         ⟨("user_created").toList, ("string").toList, none, none⟩]⟩).2.1,
   (c9_id_and_create_omissions ⟨true, true, none, false, []⟩
      ⟨("notes").toList,
        [⟨("body").toList, ("string").toList, none, none⟩,
         ⟨("user_created").toList, ("string").toList, none, none⟩]⟩).2.2 _
     (by decide)⟩

/-- Modelled from the claim's wording (C10): the suffix a field line should
carry, as a function of the `required` and `is_nullable` flags alone. -/
def claimedZodSuffix (isRequired isNullable : Bool) : Str :=
  if isRequired then []
  else if isNullable then ".nullable().optional()".toList
  else ".optional()".toList

/-- Modelled from the claim's wording (C10): the `?` marker of the TypeScript
interface, present exactly when the field is not required. -/
def claimedMark (isRequired : Bool) : Str :=
  if isRequired then [] else "?".toList

/-- C10: every generated Zod field line is the base `name: type` followed by
exactly the suffix dictated by the `required`/`is_nullable` flags
(`.nullable().optional()`, `.optional()`, or nothing), and the TypeScript
field carries the `?` marker exactly when `required` is false. -/
theorem c10_suffixes (cfg : ZodirectusConfig) (f : DirectusField) :
    generateFieldSchema cfg f =
      f.field ++ (": ").toList ++ getZodType cfg f ++
        claimedZodSuffix (isRequiredOf f) (isNullableOf f) ∧
    generateFieldType cfg f =
      f.field ++ claimedMark (isRequiredOf f) ++ (": ").toList ++
        getTypeScriptType cfg f := by
  constructor
  · simp only [generateFieldSchema, claimedZodSuffix]
    cases hr : isRequiredOf f <;> cases hn : isNullableOf f <;>
      simp [List.append_assoc]
  · simp only [generateFieldType, claimedMark]
    cases hr : isRequiredOf f <;> simp [List.append_assoc]

/-! Dependency graph of Zodirectus (src/unnamed/part_003, lines 600-689):
the JS `Map<string, Set<string>>` is modelled as an ordered association
list, matching the Map's insertion-order iteration. -/

abbrev Graph := List (Str × List Str)

def lookupG : Graph → Str → Option (List Str)
  | [], _ => none
  | (k, v) :: rest, n => if k = n then some v else lookupG rest n

/-- `graph.get(node) || new Set()`. -/
def neighbors (g : Graph) (n : Str) : List Str :=
  (lookupG g n).getD []

/-- JS `Map.set`: overwrite the existing binding in place, else append. -/
def mapSet : Graph → Str → List Str → Graph
  | [], k, v => [(k, v)]
  | (k', v') :: rest, k, v =>
    if k' = k then (k, v) :: rest else (k', v') :: mapSet rest k v

def keysOf (g : Graph) : List Str := g.map Prod.fst

/-- JS `[a-zA-Z]`. -/
def isAlphaChar (c : Char) : Bool := c.isUpper || c.isLower

/-- search, from position `k` downwards, for the last position in `run` where
the literal `Schema` occurs — the backtracking of the greedy `[a-zA-Z]*` in
`/Drx[A-Z][a-zA-Z]*Schema/`. -/
def lastSchemaAt (run : Str) : Nat → Option Nat
  | 0 => if leadsWith run ("Schema".toList) then some 0 else none
  | k + 1 =>
    if leadsWith (run.drop (k + 1)) ("Schema".toList) then some (k + 1)
    else lastSchemaAt run k

def lastSchemaIdx (run : Str) : Option Nat :=
  if run.length < 6 then none else lastSchemaAt run (run.length - 6)

/-- regex scan `schema.match(/Drx[A-Z][a-zA-Z]*Schema/g)`: all matches, left to
right, each maximal under the greedy-with-backtracking star. -/
def scanDrx : Str → List Str
  | [] => []
  | c0 :: rest =>
    if leadsWith (c0 :: rest) ("Drx".toList) then
      match (c0 :: rest).drop 3 with
      | c :: tail =>
        if c.isUpper then
          match lastSchemaIdx (tail.takeWhile isAlphaChar) with
          | some k =>
            ((c0 :: rest).take (10 + k)) :: scanDrx ((c0 :: rest).drop (10 + k))
          | none => scanDrx rest
        else scanDrx rest
      | [] => scanDrx rest
    else scanDrx rest
  termination_by s => s.length
  decreasing_by
  all_goals simp only [List.length_drop, List.length_cons]
  all_goals omega

/-- regex scan `type.match(/Drs[A-Z][a-zA-Z]*/g)`: plain greedy matches. -/
def scanDrs : Str → List Str
  | [] => []
  | c0 :: rest =>
    if leadsWith (c0 :: rest) ("Drs".toList) then
      match (c0 :: rest).drop 3 with
      | c :: tail =>
        ((c0 :: rest).take (4 + (tail.takeWhile isAlphaChar).length)) ::
          scanDrs ((c0 :: rest).drop (4 + (tail.takeWhile isAlphaChar).length))
      | [] => scanDrs rest
    else scanDrs rest
  termination_by s => s.length
  decreasing_by
  all_goals simp only [List.length_drop, List.length_cons]
  all_goals omega

/-- JS `Set.add`. -/
def depAdd (deps : List Str) (v : Str) : List Str :=
  if v ∈ deps then deps else deps ++ [v]

/-- dependency-name filter of `buildDependencyGraph`: skip Create/Update/Get
schema names and self references. -/
def keepDep (current name : Str) : Bool :=
  !trailsWith name ("Create".toList) && !trailsWith name ("Update".toList) &&
    !trailsWith name ("Get".toList) && name ≠ current

/-- `Zodirectus.buildDependencyGraph` (src/unnamed/part_003, lines 600-639). -/
def buildDependencyGraph (results : List GeneratedSchema) : Graph :=
  results.foldl
    (fun graph result =>
      let currentCollectionName := toSingular (toPascalCase result.collectionName)
      let deps0 : List Str := []
      let deps1 :=
        match result.schema with
        | some schema =>
          (scanDrx schema).foldl
            (fun deps m =>
              let singularName :=
                replaceFirst (replaceFirst m ("Drx".toList) []) ("Schema".toList) []
              if keepDep currentCollectionName singularName then
                depAdd deps singularName
              else deps)
            deps0
        | none => deps0
      let deps2 :=
        match result.type with
        | some ty =>
          (scanDrs ty).foldl
            (fun deps m =>
              let singularName := replaceFirst m ("Drs".toList) []
              if keepDep currentCollectionName singularName then
                depAdd deps singularName
              else deps)
            deps1
        | none => deps1
      mapSet graph currentCollectionName deps2)
    []

/-! DFS cycle detection (src/unnamed/part_003, lines 644-677).  The shared
mutable `visited`/`recursionStack`/`circularDeps` sets are threaded as a
state record; the recursion is fuelled, with fuel chosen (one more than the
number of node occurrences in the graph) so that it can never run out — each
nested call consumes a previously unvisited node. -/

structure DfsState where
  visited : List Str
  stack : List Str
  cycles : List (List Str)
deriving DecidableEq

/-- JS `Array.indexOf` for the case of a present element (the source only
calls it on elements known to be on the path). -/
def idxOf : List Str → Str → Nat
  | [], _ => 0
  | a :: rest, x => if a = x then 0 else idxOf rest x + 1

mutual

/-- one `dfs(node, path)` call: mark the node visited and on the recursion
stack, walk the neighbors, then remove the node from the stack. -/
def dfsVisit (g : Graph) (fuel : Nat) (node : Str) (path : List Str)
    (s : DfsState) : DfsState :=
  match fuel with
  | 0 => s
  | fuel + 1 =>
    let s1 : DfsState := ⟨node :: s.visited, node :: s.stack, s.cycles⟩
    let path1 := path ++ [node]
    let s2 := dfsNbrs g fuel (neighbors g node) path1 s1
    ⟨s2.visited, s2.stack.erase node, s2.cycles⟩
  termination_by (fuel, 0)

/-- the `for (const neighbor of neighbors)` loop body of `dfs`. -/
def dfsNbrs (g : Graph) (fuel : Nat) (nbs : List Str) (path : List Str)
    (s : DfsState) : DfsState :=
  match nbs with
  | [] => s
  | nb :: rest =>
    let s' :=
      if nb ∈ s.visited then
        if nb ∈ s.stack then
          ⟨s.visited, s.stack, s.cycles ++ [path.drop (idxOf path nb) ++ [nb]]⟩
        else s
      else dfsVisit g fuel nb path s
    dfsNbrs g fuel rest path s'
  termination_by (fuel, nbs.length + 1)

end

/-- all node names occurring in the graph (keys and dependency entries). -/
def allNodes (g : Graph) : List Str :=
  keysOf g ++ (g.map Prod.snd).flatten

/-- `Zodirectus.detectCircularDependencies` (src/unnamed/part_003, lines
644-677): run `dfs` from every unvisited key and collect the recorded
cycles. -/
def detectCircularDependencies (g : Graph) : List (List Str) :=
  let fuel := (allNodes g).length + 1
  let final := (keysOf g).foldl
    (fun s node => if node ∈ s.visited then s else dfsVisit g fuel node [] s)
    ⟨[], [], []⟩
  final.cycles

/-- directed edge of the dependency graph. -/
def isEdge (g : Graph) (u v : Str) : Prop := v ∈ neighbors g u

/-- a closed walk: at least one edge, consecutive elements joined by graph
edges, and last element equal to the first. -/
def closedWalk (g : Graph) (l : List Str) : Prop :=
  2 ≤ l.length ∧ List.Chain' (isEdge g) l ∧ l.head? = l.getLast?

/-- cycle existence, as witnessed by a closed walk. -/
def hasCycle (g : Graph) : Prop := ∃ l, closedWalk g l

/-! Properties of the DFS: stack restoration, growth of the visited and cycle
lists, and soundness of every recorded cycle. -/

lemma dfsNbrs_restore_of {g : Graph} {fuel : Nat}
    (hP : ∀ node path s, (dfsVisit g fuel node path s).stack = s.stack) :
    ∀ nbs path s, (dfsNbrs g fuel nbs path s).stack = s.stack := by
  intro nbs
  induction nbs with
  | nil => intro path s; simp [dfsNbrs]
  | cons nb rest ih =>
    intro path s
    simp only [dfsNbrs]
    rw [ih]
    by_cases h1 : nb ∈ s.visited
    · simp only [h1, if_true]
      by_cases h2 : nb ∈ s.stack <;> simp [h2]
    · simp only [h1, if_false]
      exact hP nb path s

lemma dfsVisit_restore (g : Graph) :
    ∀ fuel node path s, (dfsVisit g fuel node path s).stack = s.stack := by
  intro fuel
  induction fuel with
  | zero => intro node path s; simp [dfsVisit]
  | succ f ih =>
    intro node path s
    simp only [dfsVisit]
    rw [dfsNbrs_restore_of ih]
    exact List.erase_cons_head node s.stack

lemma dfsNbrs_restore (g : Graph) (fuel : Nat) :
    ∀ nbs path s, (dfsNbrs g fuel nbs path s).stack = s.stack :=
  dfsNbrs_restore_of (dfsVisit_restore g fuel)

/-- state extension: visited grows by consing, cycles grow by appending. -/
def ExtSt (s s' : DfsState) : Prop :=
  (∃ t, s'.visited = t ++ s.visited) ∧ (∃ t, s'.cycles = s.cycles ++ t)

lemma ExtSt.refl (s : DfsState) : ExtSt s s :=
  ⟨⟨[], rfl⟩, ⟨[], by simp⟩⟩

lemma ExtSt.trans {s₁ s₂ s₃ : DfsState} (h1 : ExtSt s₁ s₂) (h2 : ExtSt s₂ s₃) :
    ExtSt s₁ s₃ := by
  obtain ⟨⟨t1, hv1⟩, ⟨u1, hc1⟩⟩ := h1
  obtain ⟨⟨t2, hv2⟩, ⟨u2, hc2⟩⟩ := h2
  exact ⟨⟨t2 ++ t1, by rw [hv2, hv1, List.append_assoc]⟩,
    ⟨u1 ++ u2, by rw [hc2, hc1, List.append_assoc]⟩⟩

lemma dfsNbrs_ext_of {g : Graph} {fuel : Nat}
    (hP : ∀ node path s, ExtSt s (dfsVisit g fuel node path s)) :
    ∀ nbs path s, ExtSt s (dfsNbrs g fuel nbs path s) := by
  intro nbs
  induction nbs with
  | nil => intro path s; simp only [dfsNbrs]; exact ExtSt.refl s
  | cons nb rest ih =>
    intro path s
    simp only [dfsNbrs]
    have hstep : ExtSt s (if nb ∈ s.visited then
        (if nb ∈ s.stack then
          ⟨s.visited, s.stack, s.cycles ++ [path.drop (idxOf path nb) ++ [nb]]⟩
        else s)
      else dfsVisit g fuel nb path s) := by
      by_cases h1 : nb ∈ s.visited
      · by_cases h2 : nb ∈ s.stack <;>
          simp only [h1, h2, if_true, if_false] <;>
          first
            | exact ExtSt.refl s
            | exact ⟨⟨[], rfl⟩, ⟨[path.drop (idxOf path nb) ++ [nb]], rfl⟩⟩
      · simp only [h1, if_false]
        exact hP nb path s
    exact hstep.trans (ih path _)

lemma dfsVisit_ext (g : Graph) :
    ∀ fuel node path s, ExtSt s (dfsVisit g fuel node path s) := by
  intro fuel
  induction fuel with
  | zero => intro node path s; simp only [dfsVisit]; exact ExtSt.refl s
  | succ f ih =>
    intro node path s
    simp only [dfsVisit]
    have h2 := dfsNbrs_ext_of ih (neighbors g node) (path ++ [node])
      ⟨node :: s.visited, node :: s.stack, s.cycles⟩
    obtain ⟨⟨t, hv⟩, ⟨u, hc⟩⟩ := h2
    exact ⟨⟨t ++ [node], by simp only [hv]; simp⟩, ⟨u, hc⟩⟩

lemma dfsNbrs_ext (g : Graph) (fuel : Nat) :
    ∀ nbs path s, ExtSt s (dfsNbrs g fuel nbs path s) :=
  dfsNbrs_ext_of (dfsVisit_ext g fuel)

lemma idxOf_lt_length {x : Str} : ∀ {l : List Str}, x ∈ l → idxOf l x < l.length := by
  intro l
  induction l with
  | nil => intro h; simp at h
  | cons a rest ih =>
    intro h
    by_cases ha : a = x
    · simp [idxOf, ha]
    · have hx : x ∈ rest := by
        rcases List.mem_cons.mp h with h' | h'
        · exact absurd h'.symm ha
        · exact h'
      simp only [idxOf, ha, if_false, List.length_cons]
      exact Nat.succ_lt_succ (ih hx)

lemma head?_drop_idxOf {x : Str} : ∀ {l : List Str}, x ∈ l →
    (l.drop (idxOf l x)).head? = some x := by
  intro l
  induction l with
  | nil => intro h; simp at h
  | cons a rest ih =>
    intro h
    by_cases ha : a = x
    · simp [idxOf, ha]
    · have hx : x ∈ rest := by
        rcases List.mem_cons.mp h with h' | h'
        · exact absurd h'.symm ha
        · exact h'
      simp only [idxOf, ha, if_false, List.drop_succ_cons]
      exact ih hx

/-- extend a chain that ends in `a` by one edge out of `a`. -/
lemma chain'_snoc {g : Graph} {l : List Str} {a b : Str}
    (hch : List.Chain' (isEdge g) (l ++ [a])) (hedge : isEdge g a b) :
    List.Chain' (isEdge g) ((l ++ [a]) ++ [b]) := by
  rw [List.chain'_append]
  refine ⟨hch, List.chain'_singleton b, ?_⟩
  intro x hx y hy
  have hl : (l ++ [a]).getLast? = some a := by simp
  rw [hl] at hx
  simp only [Option.mem_def, Option.some.injEq] at hx
  simp only [List.head?_cons, Option.mem_def, Option.some.injEq] at hy
  subst hx
  subst hy
  exact hedge

/-- the list recorded at a back edge is a closed walk: it is the suffix of the
current path from the first occurrence of the neighbor, closed by the back
edge into that neighbor. -/
lemma recordedWalk (g : Graph) (p : List Str) (node nb : Str)
    (hch : List.Chain' (isEdge g) (p ++ [node]))
    (hmem : nb ∈ p ++ [node]) (hedge : isEdge g node nb) :
    closedWalk g ((p ++ [node]).drop (idxOf (p ++ [node]) nb) ++ [nb]) := by
  set path := p ++ [node] with hpath
  have hlt : idxOf path nb < path.length := idxOf_lt_length hmem
  set i := idxOf path nb with hi
  have hdropne : path.drop i ≠ [] := by
    intro hcon
    have := List.length_drop i path
    rw [hcon] at this
    simp at this
    omega
  have hhead : (path.drop i).head? = some nb := head?_drop_idxOf hmem
  have hchdrop : List.Chain' (isEdge g) (path.drop i) :=
    hch.suffix (List.drop_suffix i path)
  have hlast : (path.drop i).getLast? = some node := by
    have hsplit : path.take i ++ path.drop i = path := List.take_append_drop i path
    have h1 : path.getLast? = some node := by
      rw [hpath]; simp
    rw [← hsplit] at h1
    rwa [List.getLast?_append_of_ne_nil _ hdropne] at h1
  refine ⟨?_, ?_, ?_⟩
  · have : 1 ≤ (path.drop i).length := List.length_pos.2 hdropne
    simp only [List.length_append, List.length_cons, List.length_nil]
    omega
  · rw [List.chain'_append]
    refine ⟨hchdrop, List.chain'_singleton nb, ?_⟩
    intro x hx y hy
    rw [hlast] at hx
    simp only [Option.mem_def, Option.some.injEq] at hx
    simp only [List.head?_cons, Option.mem_def, Option.some.injEq] at hy
    subst hx
    subst hy
    exact hedge
  · rw [List.head?_append_of_ne_nil _ hdropne, hhead]
    simp

/-- soundness bundle: if every cycle recorded so far is a closed walk, the
same holds after any further DFS steps. -/
lemma dfsNbrs_sound_of {g : Graph} {fuel : Nat}
    (hP : ∀ node path s, List.Chain' (isEdge g) (path ++ [node]) →
      (∀ x ∈ s.stack, x ∈ path) →
      (∀ c ∈ s.cycles, closedWalk g c) →
      ∀ c ∈ (dfsVisit g fuel node path s).cycles, closedWalk g c) :
    ∀ nbs p node s, List.Chain' (isEdge g) (p ++ [node]) →
      (∀ nb ∈ nbs, isEdge g node nb) →
      (∀ x ∈ s.stack, x ∈ p ++ [node]) →
      (∀ c ∈ s.cycles, closedWalk g c) →
      ∀ c ∈ (dfsNbrs g fuel nbs (p ++ [node]) s).cycles, closedWalk g c := by
  intro nbs
  induction nbs with
  | nil =>
    intro p node s _ _ _ hcy
    simpa [dfsNbrs] using hcy
  | cons nb rest ih =>
    intro p node s hch hnb hst hcy
    simp only [dfsNbrs]
    have hedge : isEdge g node nb := hnb nb (by simp)
    have hrest : ∀ x ∈ rest, isEdge g node x := fun x hx => hnb x (by simp [hx])
    by_cases h1 : nb ∈ s.visited
    · by_cases h2 : nb ∈ s.stack
      · simp only [h1, h2, if_true]
        refine ih p node _ hch hrest hst ?_
        intro c hc
        simp only [List.mem_append, List.mem_singleton] at hc
        rcases hc with hc | hc
        · exact hcy c hc
        · subst hc
          exact recordedWalk g p node nb hch (hst nb h2) hedge
      · simp only [h1, h2, if_true, if_false]
        exact ih p node s hch hrest hst hcy
    · simp only [h1, if_false]
      refine ih p node _ hch hrest ?_ ?_
      · rw [dfsVisit_restore]
        exact hst
      · exact hP nb (p ++ [node]) s (chain'_snoc hch hedge) hst hcy

lemma dfsVisit_sound (g : Graph) :
    ∀ fuel node path s, List.Chain' (isEdge g) (path ++ [node]) →
      (∀ x ∈ s.stack, x ∈ path) →
      (∀ c ∈ s.cycles, closedWalk g c) →
      ∀ c ∈ (dfsVisit g fuel node path s).cycles, closedWalk g c := by
  intro fuel
  induction fuel with
  | zero =>
    intro node path s _ _ hcy
    simpa [dfsVisit] using hcy
  | succ f ih =>
    intro node path s hch hst hcy
    simp only [dfsVisit]
    intro c hc
    refine dfsNbrs_sound_of ih (neighbors g node) path node
      ⟨node :: s.visited, node :: s.stack, s.cycles⟩ hch (fun nb hnb => hnb) ?_ hcy c hc
    intro x hx
    simp only [List.mem_cons] at hx
    rcases hx with rfl | hx
    · simp
    · simp [hst x hx]

/-- soundness of the whole run: every returned list is a closed walk. -/
lemma detect_sound (g : Graph) :
    ∀ c ∈ detectCircularDependencies g, closedWalk g c := by
  unfold detectCircularDependencies
  have main : ∀ (keys : List Str) (s : DfsState), s.stack = [] →
      (∀ c ∈ s.cycles, closedWalk g c) →
      (∀ c ∈ (keys.foldl (fun s node =>
        if node ∈ s.visited then s
        else dfsVisit g ((allNodes g).length + 1) node [] s) s).cycles,
        closedWalk g c) ∧
      (keys.foldl (fun s node =>
        if node ∈ s.visited then s
        else dfsVisit g ((allNodes g).length + 1) node [] s) s).stack = [] := by
    intro keys
    induction keys with
    | nil => intro s h1 h2; exact ⟨h2, h1⟩
    | cons k rest ih =>
      intro s h1 h2
      simp only [List.foldl_cons]
      by_cases hv : k ∈ s.visited
      · simp only [hv, if_true]
        exact ih s h1 h2
      · simp only [hv, if_false]
        apply ih
        · rw [dfsVisit_restore]; exact h1
        · apply dfsVisit_sound g _ k [] s (by simp)
          · intro x hx; rw [h1] at hx; simp at hx
          · exact h2
  intro c hc
  exact (main (keysOf g) ⟨[], [], []⟩ rfl (by simp)).1 c hc

/-! Completeness of the cycle detection.  The DFS is mirrored by an
instrumented version that additionally records the order in which nodes
finish; the instrumentation never influences control flow, and the projection
lemma identifies the two.  If no cycle is ever recorded, the finish order is
a reverse topological order, which rules out closed walks. -/

structure DfsIState where
  visited : List Str
  stack : List Str
  cycles : List (List Str)
  finished : List Str

def projSt (s : DfsIState) : DfsState := ⟨s.visited, s.stack, s.cycles⟩

mutual

def dfsVisitI (g : Graph) (fuel : Nat) (node : Str) (path : List Str)
    (s : DfsIState) : DfsIState :=
  match fuel with
  | 0 => s
  | fuel + 1 =>
    let s1 : DfsIState := ⟨node :: s.visited, node :: s.stack, s.cycles, s.finished⟩
    let s2 := dfsNbrsI g fuel (neighbors g node) (path ++ [node]) s1
    ⟨s2.visited, s2.stack.erase node, s2.cycles, node :: s2.finished⟩
  termination_by (fuel, 0)

def dfsNbrsI (g : Graph) (fuel : Nat) (nbs : List Str) (path : List Str)
    (s : DfsIState) : DfsIState :=
  match nbs with
  | [] => s
  | nb :: rest =>
    let s' :=
      if nb ∈ s.visited then
        if nb ∈ s.stack then
          ⟨s.visited, s.stack, s.cycles ++ [path.drop (idxOf path nb) ++ [nb]],
            s.finished⟩
        else s
      else dfsVisitI g fuel nb path s
    dfsNbrsI g fuel rest path s'
  termination_by (fuel, nbs.length + 1)

end

lemma proj_dfsNbrs_of {g : Graph} {fuel : Nat}
    (hP : ∀ node path s,
      dfsVisit g fuel node path (projSt s) = projSt (dfsVisitI g fuel node path s)) :
    ∀ nbs path s,
      dfsNbrs g fuel nbs path (projSt s) = projSt (dfsNbrsI g fuel nbs path s) := by
  intro nbs
  induction nbs with
  | nil => intro path s; simp [dfsNbrs, dfsNbrsI]
  | cons nb rest ih =>
    intro path s
    simp only [dfsNbrs, dfsNbrsI]
    by_cases h1 : nb ∈ s.visited
    · by_cases h2 : nb ∈ s.stack
      · simp only [projSt, h1, h2, if_true]
        exact ih path ⟨s.visited, s.stack,
          s.cycles ++ [path.drop (idxOf path nb) ++ [nb]], s.finished⟩
      · simp only [projSt, h1, h2, if_true, if_false]
        exact ih path s
    · simp only [projSt, h1, if_false]
      rw [show (⟨s.visited, s.stack, s.cycles⟩ : DfsState) = projSt s from rfl,
        hP nb path s]
      exact ih path (dfsVisitI g fuel nb path s)

lemma proj_dfsVisit (g : Graph) :
    ∀ fuel node path s,
      dfsVisit g fuel node path (projSt s) = projSt (dfsVisitI g fuel node path s) := by
  intro fuel
  induction fuel with
  | zero => intro node path s; simp [dfsVisit, dfsVisitI]
  | succ f ih =>
    intro node path s
    simp only [dfsVisit, dfsVisitI]
    rw [show (⟨node :: (projSt s).visited, node :: (projSt s).stack,
        (projSt s).cycles⟩ : DfsState) =
      projSt ⟨node :: s.visited, node :: s.stack, s.cycles, s.finished⟩ from rfl,
      proj_dfsNbrs_of ih]
    rfl

/-- number of graph nodes not yet visited; strictly decreases when a fresh
node is marked. -/
def remaining (g : Graph) (visited : List Str) : Nat :=
  (((allNodes g).dedup).filter fun x => decide (x ∉ visited)).length

lemma length_filter_mono {α : Type} (p q : α → Bool) (l : List α)
    (h : ∀ x, p x = true → q x = true) :
    (l.filter p).length ≤ (l.filter q).length := by
  induction l with
  | nil => simp
  | cons a rest ih =>
    by_cases hp : p a = true
    · rw [List.filter_cons_of_pos hp, List.filter_cons_of_pos (h a hp)]
      simpa using ih
    · rw [List.filter_cons_of_neg (by simpa using hp)]
      by_cases hq : q a = true
      · rw [List.filter_cons_of_pos hq]
        exact le_trans ih (by simp)
      · rw [List.filter_cons_of_neg (by simpa using hq)]
        exact ih

lemma remaining_le (g : Graph) (v : List Str) :
    remaining g v ≤ (allNodes g).length :=
  le_trans (List.length_filter_le _ _) (List.dedup_sublist _).length_le

lemma remaining_anti (g : Graph) {v v' : List Str} (h : ∀ x ∈ v, x ∈ v') :
    remaining g v' ≤ remaining g v := by
  apply length_filter_mono
  intro x hx
  simp only [decide_eq_true_eq] at hx ⊢
  intro hcon
  exact hx (h x hcon)

lemma filter_mark_aux {v : List Str} {node : Str} (hnv : node ∉ v) :
    ∀ (l : List Str), node ∈ l →
      (l.filter fun x => decide (x ∉ node :: v)).length + 1 ≤
        (l.filter fun x => decide (x ∉ v)).length := by
  intro l
  induction l with
  | nil => intro h; simp at h
  | cons a rest ih =>
    intro h
    by_cases ha : a = node
    · subst ha
      rw [List.filter_cons_of_neg (by simp), List.filter_cons_of_pos (by simpa using hnv)]
      simp only [List.length_cons, Nat.add_le_add_iff_right]
      apply length_filter_mono
      intro x hx
      simp only [decide_eq_true_eq, List.mem_cons, not_or] at hx ⊢
      exact hx.2
    · have hrest : node ∈ rest := by
        rcases List.mem_cons.mp h with h' | h'
        · exact absurd h' (fun hh => ha hh.symm)
        · exact h'
      have hsame : (decide (a ∉ node :: v)) = (decide (a ∉ v)) := by
        simp only [List.mem_cons, decide_not]
        congr 1
        simp [ha]
      by_cases hav : a ∈ v
      · rw [List.filter_cons_of_neg, List.filter_cons_of_neg]
        · exact ih hrest
        · simpa using hav
        · simp [hav, ha]
      · rw [List.filter_cons_of_pos, List.filter_cons_of_pos]
        · simpa using ih hrest
        · simpa using hav
        · simp [hav, ha]

lemma remaining_mark (g : Graph) {v : List Str} {node : Str}
    (hn : node ∈ allNodes g) (hnv : node ∉ v) :
    remaining g (node :: v) + 1 ≤ remaining g v :=
  filter_mark_aux hnv _ (List.mem_dedup.mpr hn)

/-- invariant: the finish list holds exactly the visited nodes that are no
longer on the recursion stack. -/
def SIinv (s : DfsIState) : Prop :=
  ∀ x, x ∈ s.finished ↔ (x ∈ s.visited ∧ x ∉ s.stack)

def StackSub (s : DfsIState) : Prop := ∀ x ∈ s.stack, x ∈ s.visited

/-- invariant: while no cycle has been recorded, every edge out of a finished
node leads to a node finished strictly earlier. -/
def Tinv (g : Graph) (s : DfsIState) : Prop :=
  s.cycles = [] → ∀ u l₂, (u :: l₂) <:+ s.finished → ∀ v, isEdge g u v → v ∈ l₂

/-- post-state relation of one instrumented DFS step. -/
def IPost (g : Graph) (s r : DfsIState) : Prop :=
  (∃ t, r.visited = t ++ s.visited) ∧ r.stack = s.stack ∧
  (∃ t, r.cycles = s.cycles ++ t) ∧ (∃ t, r.finished = t ++ s.finished) ∧
  SIinv r ∧ StackSub r ∧ Tinv g r

lemma IPost.trans_mid {g : Graph} {s s' r : DfsIState}
    (h1 : (∃ t, s'.visited = t ++ s.visited) ∧ s'.stack = s.stack ∧
      (∃ t, s'.cycles = s.cycles ++ t) ∧ (∃ t, s'.finished = t ++ s.finished))
    (h2 : IPost g s' r) : IPost g s r := by
  obtain ⟨⟨t1, hv1⟩, hst1, ⟨u1, hc1⟩, ⟨w1, hf1⟩⟩ := h1
  obtain ⟨⟨t2, hv2⟩, hst2, ⟨u2, hc2⟩, ⟨w2, hf2⟩, hsi, hss, ht⟩ := h2
  refine ⟨⟨t2 ++ t1, by rw [hv2, hv1, List.append_assoc]⟩,
    by rw [hst2, hst1], ⟨u1 ++ u2, by rw [hc2, hc1, List.append_assoc]⟩,
    ⟨w2 ++ w1, by rw [hf2, hf1, List.append_assoc]⟩, hsi, hss, ht⟩

lemma edge_tgt_allNodes {g : Graph} {u v : Str} (h : isEdge g u v) :
    v ∈ allNodes g := by
  unfold isEdge neighbors at h
  cases hl : lookupG g u with
  | none => rw [hl] at h; simp at h
  | some l =>
    rw [hl] at h
    simp only [Option.getD_some] at h
    have hmem : (u, l) ∈ g := by
      clear h
      induction g with
      | nil => simp [lookupG] at hl
      | cons p rest ih =>
        rw [lookupG] at hl
        by_cases hp : p.1 = u
        · rw [if_pos hp] at hl
          have hp2 : p.2 = l := by
            injection hl
          have : p = (u, l) := by
            cases p
            simp only at hp hp2
            rw [hp, hp2]
          rw [← this]
          exact List.mem_cons_self p rest
        · rw [if_neg hp] at hl
          exact List.mem_cons_of_mem p (ih hl)
    unfold allNodes
    apply List.mem_append_right
    rw [List.mem_flatten]
    exact ⟨l, List.mem_map.mpr ⟨(u, l), hmem, rfl⟩, h⟩

lemma edge_src_key {g : Graph} {u v : Str} (h : isEdge g u v) :
    u ∈ keysOf g := by
  unfold isEdge neighbors at h
  cases hl : lookupG g u with
  | none => rw [hl] at h; simp at h
  | some l =>
    clear h
    induction g with
    | nil => simp [lookupG] at hl
    | cons p rest ih =>
      rw [lookupG] at hl
      by_cases hp : p.1 = u
      · rw [if_pos hp] at hl
        simp [keysOf, hp]
      · rw [if_neg hp] at hl
        simp only [keysOf, List.map_cons, List.mem_cons]
        right
        exact ih hl

/-- main invariant bundle of the instrumented DFS, proved by induction on the
fuel with an inner induction on the neighbor list. -/
lemma dfsI_bundle (g : Graph) : ∀ fuel : Nat,
    (∀ node path s, node ∉ s.visited → node ∈ allNodes g →
      remaining g s.visited < fuel → SIinv s → StackSub s → Tinv g s →
      IPost g s (dfsVisitI g fuel node path s) ∧
        node ∈ (dfsVisitI g fuel node path s).finished) ∧
    (∀ nbs node path s, (∀ nb ∈ nbs, isEdge g node nb) →
      remaining g s.visited < fuel → SIinv s → StackSub s → Tinv g s →
      IPost g s (dfsNbrsI g fuel nbs path s) ∧
        ∀ nb ∈ nbs, (dfsNbrsI g fuel nbs path s).cycles = [] →
          nb ∈ (dfsNbrsI g fuel nbs path s).finished) := by
  intro fuel
  induction fuel with
  | zero =>
    constructor
    · intro node path s _ _ hrem _ _ _
      exact absurd hrem (by omega)
    · intro nbs node path s _ hrem _ _ _
      exact absurd hrem (by omega)
  | succ f ih =>
    have hP : ∀ node path s, node ∉ s.visited → node ∈ allNodes g →
        remaining g s.visited < f + 1 → SIinv s → StackSub s → Tinv g s →
        IPost g s (dfsVisitI g (f + 1) node path s) ∧
          node ∈ (dfsVisitI g (f + 1) node path s).finished := by
      intro node path s hnv hna hrem hsi hss ht
      simp only [dfsVisitI]
      set s1 : DfsIState := ⟨node :: s.visited, node :: s.stack, s.cycles,
        s.finished⟩ with hs1
      set s2 : DfsIState := dfsNbrsI g f (neighbors g node) (path ++ [node]) s1
        with hs2def
      have hrem1 : remaining g s1.visited < f := by
        have hm := remaining_mark g hna hnv
        show remaining g (node :: s.visited) < f
        omega
      have hsi1 : SIinv s1 := by
        intro x
        show x ∈ s.finished ↔ (x ∈ node :: s.visited ∧ x ∉ node :: s.stack)
        simp only [List.mem_cons]
        constructor
        · intro hx
          have h' := (hsi x).1 hx
          have hxn : x ≠ node := by
            intro hcon
            rw [hcon] at h'
            exact hnv h'.1
          refine ⟨Or.inr h'.1, ?_⟩
          intro hcon
          rcases hcon with hcon | hcon
          · exact hxn hcon
          · exact h'.2 hcon
        · rintro ⟨hx1, hx2⟩
          rcases hx1 with rfl | hx1
          · exact absurd (Or.inl rfl) hx2
          · exact (hsi x).2 ⟨hx1, fun hcon => hx2 (Or.inr hcon)⟩
      have hss1 : StackSub s1 := by
        intro x hx
        show x ∈ node :: s.visited
        have hx' : x ∈ node :: s.stack := hx
        simp only [List.mem_cons] at hx' ⊢
        rcases hx' with rfl | hx'
        · exact Or.inl rfl
        · exact Or.inr (hss x hx')
      have ht1 : Tinv g s1 := by
        intro hc u l₂ hsuf v hv
        exact ht hc u l₂ hsuf v hv
      obtain ⟨hip2, hnb2⟩ := ih.2 (neighbors g node) node (path ++ [node]) s1
        (fun nb h => h) hrem1 hsi1 hss1 ht1
      obtain ⟨⟨tv, hv2⟩, hst2, ⟨tc, hc2⟩, ⟨tf, hf2⟩, hsi2, hss2, ht2⟩ := hip2
      have hs2stack : s2.stack = node :: s.stack := hst2
      have hnodemem2 : node ∈ s2.visited := by
        rw [hv2]
        exact List.mem_append_right tv (List.mem_cons_self node s.visited)
      have hnodestack : node ∉ s.stack := fun hcon => hnv (hss node hcon)
      constructor
      · refine ⟨?_, ?_, ?_, ?_, ?_, ?_, ?_⟩
        · refine ⟨tv ++ [node], ?_⟩
          show s2.visited = (tv ++ [node]) ++ s.visited
          rw [hv2]
          simp [hs1]
        · show s2.stack.erase node = s.stack
          rw [hs2stack, List.erase_cons_head]
        · exact ⟨tc, hc2⟩
        · refine ⟨node :: tf, ?_⟩
          show node :: s2.finished = (node :: tf) ++ s.finished
          rw [hf2]
          rfl
        · intro x
          show x ∈ node :: s2.finished ↔ (x ∈ s2.visited ∧ x ∉ s2.stack.erase node)
          rw [hs2stack, List.erase_cons_head]
          simp only [List.mem_cons]
          constructor
          · intro hx
            rcases hx with rfl | hx
            · exact ⟨hnodemem2, hnodestack⟩
            · have h' := (hsi2 x).1 hx
              rw [hs2stack] at h'
              refine ⟨h'.1, ?_⟩
              intro hcon
              exact h'.2 (List.mem_cons_of_mem node hcon)
          · rintro ⟨hx1, hx2⟩
            by_cases hxn : x = node
            · exact Or.inl hxn
            · refine Or.inr ((hsi2 x).2 ⟨hx1, ?_⟩)
              rw [hs2stack]
              intro hcon
              rcases List.mem_cons.mp hcon with hcon | hcon
              · exact hxn hcon
              · exact hx2 hcon
        · intro x hx
          have hx' : x ∈ s.stack := by
            have : x ∈ s2.stack.erase node := hx
            rw [hs2stack, List.erase_cons_head] at this
            exact this
          show x ∈ s2.visited
          rw [hv2]
          exact List.mem_append_right tv (List.mem_cons_of_mem node (hss x hx'))
        · intro hcfinal u l₂ hsuf v hv
          have hc2nil : s2.cycles = [] := hcfinal
          have hsuf' : (u :: l₂) <:+ node :: s2.finished := hsuf
          rcases List.suffix_cons_iff.mp hsuf' with heq | hsufr
          · have he1 : u = node := by injection heq
            have he2 : l₂ = s2.finished := by injection heq
            subst he1
            subst he2
            exact hnb2 v hv hc2nil
          · exact ht2 hc2nil u l₂ hsufr v hv
      · exact List.mem_cons_self node s2.finished
    have hQ : ∀ nbs node path s, (∀ nb ∈ nbs, isEdge g node nb) →
        remaining g s.visited < f + 1 → SIinv s → StackSub s → Tinv g s →
        IPost g s (dfsNbrsI g (f + 1) nbs path s) ∧
          ∀ nb ∈ nbs, (dfsNbrsI g (f + 1) nbs path s).cycles = [] →
            nb ∈ (dfsNbrsI g (f + 1) nbs path s).finished := by
      intro nbs
      induction nbs with
      | nil =>
        intro node path s _ _ hsi hss ht
        simp only [dfsNbrsI]
        refine ⟨⟨⟨[], rfl⟩, rfl, ⟨[], by simp⟩, ⟨[], rfl⟩, hsi, hss, ht⟩, ?_⟩
        intro nb h
        simp at h
      | cons nb rest ihr =>
        intro node path s hnb hrem hsi hss ht
        simp only [dfsNbrsI]
        have hrestedges : ∀ x ∈ rest, isEdge g node x :=
          fun x hx => hnb x (List.mem_cons_of_mem nb hx)
        by_cases h1 : nb ∈ s.visited
        · by_cases h2 : nb ∈ s.stack
          · simp only [h1, h2, if_true]
            set s' : DfsIState := ⟨s.visited, s.stack,
              s.cycles ++ [path.drop (idxOf path nb) ++ [nb]], s.finished⟩ with hs'
            have hts' : Tinv g s' := by
              intro hc
              exfalso
              have : s.cycles ++ [path.drop (idxOf path nb) ++ [nb]] = [] := hc
              simp at this
            obtain ⟨hip, hrest⟩ := ihr node path s' hrestedges hrem hsi hss hts'
            have hmid : (∃ t, s'.visited = t ++ s.visited) ∧ s'.stack = s.stack ∧
                (∃ t, s'.cycles = s.cycles ++ t) ∧
                (∃ t, s'.finished = t ++ s.finished) :=
              ⟨⟨[], rfl⟩, rfl, ⟨[path.drop (idxOf path nb) ++ [nb]], rfl⟩, ⟨[], rfl⟩⟩
            refine ⟨IPost.trans_mid hmid hip, ?_⟩
            intro x hx hcyc
            rcases List.mem_cons.mp hx with rfl | hx'
            · exfalso
              obtain ⟨tc, hc⟩ := hip.2.2.1
              rw [hcyc] at hc
              have h0 : s'.cycles = [] := (List.append_eq_nil.mp hc.symm).1
              rw [hs'] at h0
              simp at h0
            · exact hrest x hx' hcyc
          · simp only [h1, h2, if_true, if_false]
            obtain ⟨hip, hrest⟩ := ihr node path s hrestedges hrem hsi hss ht
            refine ⟨hip, ?_⟩
            intro x hx hcyc
            rcases List.mem_cons.mp hx with rfl | hx'
            · have hfin : x ∈ s.finished := (hsi x).2 ⟨h1, h2⟩
              obtain ⟨tf, hf⟩ := hip.2.2.2.1
              rw [hf]
              exact List.mem_append_right tf hfin
            · exact hrest x hx' hcyc
        · simp only [h1, if_false]
          have hedge : isEdge g node nb := hnb nb (List.mem_cons_self nb rest)
          obtain ⟨hipv, hfinv⟩ := hP nb path s h1 (edge_tgt_allNodes hedge) hrem
            hsi hss ht
          obtain ⟨⟨tv, hv⟩, hst, ⟨tc, hc⟩, ⟨tf, hf⟩, hsi', hss', ht'⟩ := hipv
          have hrem' : remaining g (dfsVisitI g (f + 1) nb path s).visited < f + 1 := by
            have hanti : remaining g (dfsVisitI g (f + 1) nb path s).visited ≤
                remaining g s.visited := by
              apply remaining_anti
              intro x hx
              rw [hv]
              exact List.mem_append_right tv hx
            omega
          obtain ⟨hip, hrest⟩ := ihr node path (dfsVisitI g (f + 1) nb path s)
            hrestedges hrem' hsi' hss' ht'
          refine ⟨IPost.trans_mid ⟨⟨tv, hv⟩, hst, ⟨tc, hc⟩, ⟨tf, hf⟩⟩ hip, ?_⟩
          intro x hx hcyc
          rcases List.mem_cons.mp hx with rfl | hx'
          · obtain ⟨tf2, hf2⟩ := hip.2.2.2.1
            rw [hf2]
            exact List.mem_append_right tf2 hfinv
          · exact hrest x hx' hcyc
    exact ⟨hP, hQ⟩

/-- instrumented top-level run of `detectCircularDependencies`. -/
def runDetectI (g : Graph) : DfsIState :=
  (keysOf g).foldl
    (fun s node => if node ∈ s.visited then s
      else dfsVisitI g ((allNodes g).length + 1) node [] s)
    ⟨[], [], [], []⟩

lemma proj_fold (g : Graph) (fuel : Nat) : ∀ (keys : List Str) (s : DfsIState),
    keys.foldl (fun s node => if node ∈ s.visited then s
      else dfsVisit g fuel node [] s) (projSt s) =
    projSt (keys.foldl (fun s node => if node ∈ s.visited then s
      else dfsVisitI g fuel node [] s) s) := by
  intro keys
  induction keys with
  | nil => intro s; rfl
  | cons k rest ih =>
    intro s
    simp only [List.foldl_cons]
    by_cases hv : k ∈ s.visited
    · have : k ∈ (projSt s).visited := hv
      rw [if_pos this, if_pos hv]
      exact ih s
    · have : k ∉ (projSt s).visited := hv
      rw [if_neg this, if_neg hv, proj_dfsVisit]
      exact ih (dfsVisitI g fuel k [] s)

lemma detect_eq_projI (g : Graph) :
    detectCircularDependencies g = (runDetectI g).cycles := by
  have h := proj_fold g ((allNodes g).length + 1) (keysOf g) ⟨[], [], [], []⟩
  have h2 : detectCircularDependencies g =
      (List.foldl (fun s node => if node ∈ s.visited then s
        else dfsVisit g ((allNodes g).length + 1) node [] s)
        (projSt ⟨[], [], [], []⟩) (keysOf g)).cycles := rfl
  rw [h2, h]
  rfl

lemma keys_sub_allNodes {g : Graph} {k : Str} (h : k ∈ keysOf g) :
    k ∈ allNodes g :=
  List.mem_append_left _ h

/-- invariants of the instrumented top-level fold, and the fact that every key
ends up visited. -/
lemma runI_fold (g : Graph) (fuel : Nat) (hfuel : (allNodes g).length < fuel) :
    ∀ (keys : List Str) (s : DfsIState),
      (∀ k ∈ keys, k ∈ keysOf g) → SIinv s → StackSub s → Tinv g s →
      s.stack = [] →
      SIinv (keys.foldl (fun s node => if node ∈ s.visited then s
        else dfsVisitI g fuel node [] s) s) ∧
      StackSub (keys.foldl (fun s node => if node ∈ s.visited then s
        else dfsVisitI g fuel node [] s) s) ∧
      Tinv g (keys.foldl (fun s node => if node ∈ s.visited then s
        else dfsVisitI g fuel node [] s) s) ∧
      (keys.foldl (fun s node => if node ∈ s.visited then s
        else dfsVisitI g fuel node [] s) s).stack = [] ∧
      (∃ t, (keys.foldl (fun s node => if node ∈ s.visited then s
        else dfsVisitI g fuel node [] s) s).visited = t ++ s.visited) ∧
      (∀ k ∈ keys, k ∈ (keys.foldl (fun s node => if node ∈ s.visited then s
        else dfsVisitI g fuel node [] s) s).visited) := by
  intro keys
  induction keys with
  | nil =>
    intro s _ hsi hss ht hstk
    refine ⟨hsi, hss, ht, hstk, ⟨[], rfl⟩, ?_⟩
    intro k hk
    simp at hk
  | cons k rest ih =>
    intro s hkeys hsi hss ht hstk
    simp only [List.foldl_cons]
    by_cases hv : k ∈ s.visited
    · rw [if_pos hv]
      obtain ⟨hsi', hss', ht', hstk', ⟨t, hvis'⟩, hmem'⟩ :=
        ih s (fun x hx => hkeys x (List.mem_cons_of_mem k hx)) hsi hss ht hstk
      refine ⟨hsi', hss', ht', hstk', ⟨t, hvis'⟩, ?_⟩
      intro x hx
      rcases List.mem_cons.mp hx with rfl | hx'
      · rw [hvis']
        exact List.mem_append_right t hv
      · exact hmem' x hx'
    · rw [if_neg hv]
      have hrem : remaining g s.visited < fuel :=
        lt_of_le_of_lt (remaining_le g s.visited) hfuel
      obtain ⟨⟨⟨tv, hvis⟩, hstk1, _, _, hsi1, hss1, ht1⟩, hfin1⟩ :=
        (dfsI_bundle g fuel).1 k [] s hv
          (keys_sub_allNodes (hkeys k (List.mem_cons_self k rest))) hrem hsi hss ht
      have hstk1' : (dfsVisitI g fuel k [] s).stack = [] := by
        rw [hstk1, hstk]
      have hkv : k ∈ (dfsVisitI g fuel k [] s).visited := ((hsi1 k).1 hfin1).1
      obtain ⟨hsi', hss', ht', hstk', ⟨t, hvis'⟩, hmem'⟩ :=
        ih (dfsVisitI g fuel k [] s)
          (fun x hx => hkeys x (List.mem_cons_of_mem k hx)) hsi1 hss1 ht1 hstk1'
      refine ⟨hsi', hss', ht', hstk', ?_, ?_⟩
      · exact ⟨t ++ tv, by rw [hvis', hvis, List.append_assoc]⟩
      · intro x hx
        rcases List.mem_cons.mp hx with rfl | hx'
        · rw [hvis']
          exact List.mem_append_right t hkv
        · exact hmem' x hx'

/-- every node of a closed walk has an edge to another node of the walk. -/
lemma walk_succ {g : Graph} {W : List Str} (hW : closedWalk g W) :
    ∀ u ∈ W, ∃ v, v ∈ W ∧ isEdge g u v := by
  obtain ⟨hlen, hch, hht⟩ := hW
  intro u hu
  obtain ⟨⟨i, hi⟩, hgi⟩ := List.mem_iff_get.mp hu
  by_cases hi1 : i < W.length - 1
  · refine ⟨W.get ⟨i + 1, by omega⟩, List.get_mem W _ _, ?_⟩
    have := List.chain'_iff_get.mp hch i hi1
    rwa [hgi] at this
  · have h0 : W.get ⟨0, by omega⟩ = u := by
      have hi0 : i = W.length - 1 := by omega
      have hlast : W.getLast? = some u := by
        rw [List.getLast?_eq_getElem?, List.getElem?_eq_getElem (by omega)]
        rw [← hgi]
        congr 1
        simp [hi0, List.get_eq_getElem]
      have hhead : W.head? = some u := by rw [hht]; exact hlast
      rw [List.head?_eq_getElem?, List.getElem?_eq_getElem (by omega)] at hhead
      simpa [List.get_eq_getElem] using hhead
    refine ⟨W.get ⟨1, by omega⟩, List.get_mem W _ _, ?_⟩
    have := List.chain'_iff_get.mp hch 0 (by omega)
    rwa [h0] at this

/-- a reverse topological finish order rules out closed walks through finished
nodes. -/
lemma no_walk_of_T {g : Graph} {F : List Str}
    (hT : ∀ u l₂, (u :: l₂) <:+ F → ∀ v, isEdge g u v → v ∈ l₂)
    {W : List Str} (hW : closedWalk g W) (hWF : ∀ u ∈ W, u ∈ F) : False := by
  have main : ∀ n u l₂, u ∈ W → (u :: l₂) <:+ F → l₂.length ≤ n → False := by
    intro n
    induction n with
    | zero =>
      intro u l₂ hu hsuf hlen
      obtain ⟨v, _, hedge⟩ := walk_succ hW u hu
      have hvl := hT u l₂ hsuf v hedge
      have h0 : l₂ = [] := List.length_eq_zero.mp (Nat.le_antisymm hlen (Nat.zero_le _))
      rw [h0] at hvl
      simp at hvl
    | succ n ihn =>
      intro u l₂ hu hsuf hlen
      obtain ⟨v, hvW, hedge⟩ := walk_succ hW u hu
      have hvl := hT u l₂ hsuf v hedge
      obtain ⟨l₁, l₂', hsplit⟩ := List.append_of_mem hvl
      have hsuf2 : (v :: l₂') <:+ F := by
        have h1 : (v :: l₂') <:+ l₂ := ⟨l₁, hsplit.symm⟩
        have h2 : l₂ <:+ F := (List.suffix_cons u l₂).trans hsuf
        exact h1.trans h2
      apply ihn v l₂' hvW hsuf2
      have := congrArg List.length hsplit
      simp only [List.length_append, List.length_cons] at this
      omega
  obtain ⟨hlen, _, _⟩ := hW
  have hne : W ≠ [] := by
    intro h
    rw [h] at hlen
    simp at hlen
  obtain ⟨u, hu⟩ := List.exists_mem_of_ne_nil W hne
  obtain ⟨l₁, l₂, hsplit⟩ := List.append_of_mem (hWF u hu)
  exact main l₂.length u l₂ hu ⟨l₁, hsplit.symm⟩ le_rfl

/-- completeness of the cycle detection: a graph with a closed walk makes the
DFS record at least one cycle. -/
lemma detect_complete (g : Graph) (h : hasCycle g) :
    detectCircularDependencies g ≠ [] := by
  intro hempty
  obtain ⟨W, hW⟩ := h
  have hFc : (runDetectI g).cycles = [] := by
    rw [← detect_eq_projI]
    exact hempty
  have hsi0 : SIinv ⟨[], [], [], []⟩ := by
    intro x
    simp [SIinv]
  have hss0 : StackSub ⟨[], [], [], []⟩ := by
    intro x hx
    simp at hx
  have ht0 : Tinv g ⟨[], [], [], []⟩ := by
    intro _ u l₂ hsuf v _
    have := List.suffix_nil.mp hsuf
    simp at this
  obtain ⟨hsiF, _, htF, hstkF, _, hkeysF⟩ :=
    runI_fold g ((allNodes g).length + 1) (by omega) (keysOf g) ⟨[], [], [], []⟩
      (fun k hk => hk) hsi0 hss0 ht0 rfl
  have hWfin : ∀ u ∈ W, u ∈ (runDetectI g).finished := by
    intro u hu
    obtain ⟨v, _, hedge⟩ := walk_succ hW u hu
    have hk : u ∈ keysOf g := edge_src_key hedge
    have hv : u ∈ (runDetectI g).visited := hkeysF u hk
    refine (hsiF u).2 ⟨hv, ?_⟩
    rw [hstkF]
    simp
  exact no_walk_of_T (htF hFc) hW hWfin

/-- C2: for every dependency graph produced by `buildDependencyGraph`,
`detectCircularDependencies` returns a nonempty list exactly when the graph
has a cycle (a closed walk), and every returned list is a walk along graph
edges whose last element equals its first. -/
theorem c2_cycle_detection (results : List GeneratedSchema) :
    (detectCircularDependencies (buildDependencyGraph results) ≠ [] ↔
      hasCycle (buildDependencyGraph results)) ∧
    ∀ c ∈ detectCircularDependencies (buildDependencyGraph results),
      closedWalk (buildDependencyGraph results) c := by
  refine ⟨⟨?_, ?_⟩, detect_sound (buildDependencyGraph results)⟩
  · intro hne
    cases hd : detectCircularDependencies (buildDependencyGraph results) with
    | nil => exact absurd hd hne
    | cons c cs =>
      refine ⟨c, detect_sound (buildDependencyGraph results) c ?_⟩
      rw [hd]
      exact List.mem_cons_self c cs
  · exact detect_complete (buildDependencyGraph results)

/-! Model of `Zodirectus.generate` (src/unnamed/part_003).  The Directus
client is an oracle: authentication, the collection listing and the
per-collection field metadata either succeed or throw.  The observable I/O of
a run — the returned results, the ordered trace of
`getCollectionWithFields` calls, and the written files — is returned
explicitly. -/

structure Env where
  authOk : Except Str Unit
  colls : Except Str (List Str)
  fieldsFor : Str → Except Str (List DirectusField)

structure RunOut where
  results : List GeneratedSchema
  fetched : List Str
  writes : List (Str × Str)
deriving DecidableEq

/-- collection filtering of `generate` (src/unnamed/part_003, lines 48-69):
the requested subset, the system-collection filter, and the hard-coded
folder filter. -/
def folderNames : List Str :=
  [("Dialogues").toList, ("Expert_System").toList, ("Models").toList,
    ("settings").toList]

def actualCollectionsOf (cfg : ZodirectusConfig) (collections : List Str) :
    List Str :=
  let targetCollections :=
    match cfg.collections with
    | some cs => collections.filter fun c => c ∈ cs
    | none => collections
  let filteredCollections :=
    if cfg.includeSystemCollections then targetCollections
    else targetCollections.filter fun c => !leadsWith c (("directus_").toList)
  filteredCollections.filter fun c => !(c ∈ folderNames)

/-- `results.find(r => r.collectionName === name)` followed by setting
`.type` on the found entry; returns whether an entry was found. -/
def attachType : List GeneratedSchema → Str → Str → Bool × List GeneratedSchema
  | [], _, _ => (false, [])
  | r :: rest, name, ty =>
    if r.collectionName = name then (true, ⟨r.collectionName, r.schema, some ty⟩ :: rest)
    else
      let p := attachType rest name ty
      (p.1, r :: p.2)

/-- one iteration of the per-collection loop (src/unnamed/part_003, lines
78-105): fetch the fields (traced), and on success push the schema entry
and/or attach the type; a fetch error skips the collection. -/
def mainStep (env : Env) (cfg : ZodirectusConfig)
    (acc : List GeneratedSchema × List Str) (name : Str) :
    List GeneratedSchema × List Str :=
  let results := acc.1
  let trace := acc.2 ++ [name]
  match env.fieldsFor name with
  | .error _ => (results, trace)
  | .ok flds =>
    let coll : DirectusCollectionWithFields := ⟨name, flds⟩
    let results1 :=
      if cfg.generateSchemas then
        results ++ [⟨name, some (generateSchema cfg coll false), none⟩]
      else results
    let results2 :=
      if cfg.generateTypes then
        let ty := generateType cfg coll
        let p := attachType results1 name ty
        if p.1 then p.2 else results1 ++ [⟨name, none, some ty⟩]
      else results1
    (results2, trace)

/-- `circularDeps.some(cycle => cycle.includes(toSingular(toPascalCase
name)))`. -/
def inCycleB (circularDeps : List (List Str)) (name : Str) : Bool :=
  circularDeps.any fun cycle => toSingular (toPascalCase name) ∈ cycle

/-- the regeneration pass (src/unnamed/part_003, lines 112-128): for every
result with a schema whose singular name lies on a detected cycle, re-fetch
the collection (traced; a fetch error aborts the run) and regenerate the
schema in lazy mode. -/
def regenLoop (env : Env) (cfg : ZodirectusConfig)
    (circularDeps : List (List Str)) (actual : List Str) :
    List GeneratedSchema → List Str →
      Except Str (List GeneratedSchema × List Str)
  | [], trace => .ok ([], trace)
  | r :: rest, trace =>
    let keep : Except Str (GeneratedSchema × List Str) :=
      match r.schema with
      | some _ =>
        if inCycleB circularDeps r.collectionName then
          if r.collectionName ∈ actual then
            match env.fieldsFor r.collectionName with
            | .error e => .error e
            | .ok flds =>
              .ok (⟨r.collectionName,
                some (generateSchema cfg ⟨r.collectionName, flds⟩ true), r.type⟩,
                trace ++ [r.collectionName])
          else .ok (r, trace)
        else .ok (r, trace)
      | none => .ok (r, trace)
    match keep with
    | .error e => .error e
    | .ok p =>
      match regenLoop env cfg circularDeps actual rest p.2 with
      | .error e => .error e
      | .ok q => .ok (p.1 :: q.1, q.2)

/-! `writeFileSchemas` (src/unnamed/part_003, lines 168-312). -/

/-- `Zodirectus.generateFileSchemaFields` (lines 317-379). -/
def generateFileSchemaFields (fileFields : List DirectusField) : Str :=
  List.intercalate (",\n".toList) (fileFields.map fun f =>
    let dataType := directusTypeOf f
    let notNullable := !((f.schema.bind FieldSchemaMeta.is_nullable).getD false)
    let isPK := (f.schema.bind FieldSchemaMeta.is_primary_key).getD false
    let isOptional := notNullable && !isPK
    let zodType :=
      if dataType = "uuid".toList then "z.string().uuid()".toList
      else if dataType ∈ ["varchar".toList, "text".toList, "string".toList,
          "character varying".toList] then "z.string()".toList
      else if dataType ∈ ["integer".toList, "bigint".toList, "int".toList] then
        "z.number().int()".toList
      else if dataType ∈ ["float".toList, "decimal".toList, "numeric".toList,
          "real".toList] then "z.number()".toList
      else if dataType = "boolean".toList then "z.boolean()".toList
      else if dataType ∈ ["json".toList, "jsonb".toList] then
        "z.record(z.any())".toList
      else if dataType ∈ ["timestamp".toList, "datetime".toList,
          "timestamp with time zone".toList] then "z.string().datetime()".toList
      else if dataType = "date".toList then "z.string().date()".toList
      else if dataType = "time".toList then "z.string().time()".toList
      else "z.any()".toList
    let zodType := if isOptional then zodType ++ ".optional()".toList else zodType
    "  ".toList ++ f.field ++ ": ".toList ++ zodType)

/-- `Zodirectus.generateFileInterfaceFields` (lines 384-439); the image
variant (lines 444-448) delegates to the same function. -/
def generateFileInterfaceFields (fileFields : List DirectusField) : Str :=
  List.intercalate ("\n".toList) (fileFields.map fun f =>
    let dataType := directusTypeOf f
    let notNullable := !((f.schema.bind FieldSchemaMeta.is_nullable).getD false)
    let isPK := (f.schema.bind FieldSchemaMeta.is_primary_key).getD false
    let isOptional := notNullable && !isPK
    let tsType :=
      if dataType = "uuid".toList then "string".toList
      else if dataType ∈ ["varchar".toList, "text".toList, "string".toList,
          "character varying".toList] then "string".toList
      else if dataType ∈ ["integer".toList, "bigint".toList, "int".toList] then
        "number".toList
      else if dataType ∈ ["float".toList, "decimal".toList, "numeric".toList,
          "real".toList] then "number".toList
      else if dataType = "boolean".toList then "boolean".toList
      else if dataType ∈ ["json".toList, "jsonb".toList] then
        "Record<string, any>".toList
      else if dataType ∈ ["timestamp".toList, "datetime".toList,
          "timestamp with time zone".toList, "date".toList, "time".toList] then
        "string".toList
      else "any".toList
    let optionalMarker := if isOptional then "?".toList else ([] : Str)
    "  ".toList ++ f.field ++ optionalMarker ++ ": ".toList ++ tsType ++ ";".toList)

/-- generated `file-schemas.ts` content when the file collection structure is
available (src/unnamed/part_003, lines 180-206). -/
def fileSchemasGenerated (fileFields : List DirectusField) : Str :=
  ("import \x7b z \x7d from 'zod';\n\n/**\n * Directus file object schema (generated from actual Directus structure)\n */\nexport const DrxFileSchema = z.object(\x7b\n").toList ++
  generateFileSchemaFields fileFields ++
  ("\n\x7d);\n\n/**\n * Directus image file object schema (generated from actual Directus structure)\n */\nexport const DrxImageFileSchema = z.object(\x7b\n").toList ++
  generateFileSchemaFields fileFields ++
  ("\n\x7d);\n\n/**\n * TypeScript interfaces for Directus file objects\n */\nexport interface DrsFile \x7b\n").toList ++
  generateFileInterfaceFields fileFields ++
  ("\n\x7d\n\nexport interface DrsImageFile \x7b\n").toList ++
  generateFileInterfaceFields fileFields ++
  ("\n\x7d\n").toList

/-- fallback `file-schemas.ts` content (src/unnamed/part_003, lines 213-307). -/
def fileSchemasFallback : Str :=
  ("import \x7b z \x7d from 'zod';\n\n/**\n * Directus file object schema (fallback)\n */\nexport const DrxFileSchema = z.object(\x7b\n  id: z.string().uuid(),\n  filename_disk: z.string(),\n  filename_download: z.string(),\n  title: z.string().optional(),\n  type: z.string(),\n  folder: z.string().uuid().optional(),\n  uploaded_by: z.string().uuid().optional(),\n  uploaded_on: z.string().datetime(),\n  modified_by: z.string().uuid().optional(),\n  modified_on: z.string().datetime(),\n  charset: z.string().optional(),\n  filesize: z.number().int(),\n  description: z.string().optional(),\n  location: z.string().optional(),\n  tags: z.array(z.string()).optional(),\n  metadata: z.record(z.any()).optional()\n\x7d);\n\n").toList ++
  ("/**\n * Directus image file object schema (fallback)\n */\nexport const DrxImageFileSchema = z.object(\x7b\n  id: z.string().uuid(),\n  filename_disk: z.string(),\n  filename_download: z.string(),\n  title: z.string().optional(),\n  description: z.string().optional(),\n  type: z.string(),\n  folder: z.string().uuid().optional(),\n  uploaded_by: z.string().uuid().optional(),\n  uploaded_on: z.string().datetime(),\n  modified_by: z.string().uuid().optional(),\n  modified_on: z.string().datetime(),\n  charset: z.string().optional(),\n  filesize: z.number().int(),\n  width: z.number().int().optional(),\n  height: z.number().int().optional(),\n  duration: z.number().optional(),\n  embed: z.string().optional(),\n  location: z.string().optional(),\n  tags: z.array(z.string()).optional(),\n  metadata: z.record(z.any()).optional()\n\x7d);\n\n").toList ++
  ("/**\n * TypeScript interfaces for Directus file objects (fallback)\n */\nexport interface DrsFile \x7b\n  id: string;\n  filename_disk: string;\n  filename_download: string;\n  title?: string;\n  type: string;\n  folder?: string;\n  uploaded_by?: string;\n  uploaded_on: string;\n  modified_by?: string;\n  modified_on: string;\n  charset?: string;\n  filesize: number;\n  description?: string;\n  location?: string;\n  tags?: string[];\n  metadata?: Record<string, any>;\n\x7d\n\n").toList ++
  ("export interface DrsImageFile \x7b\n  id: string;\n  filename_disk: string;\n  filename_download: string;\n  title?: string;\n  description?: string;\n  type: string;\n  folder?: string;\n  uploaded_by?: string;\n  uploaded_on: string;\n  modified_by?: string;\n  modified_on: string;\n  charset?: string;\n  filesize: number;\n  width?: number;\n  height?: number;\n  duration?: number;\n  embed?: string;\n  location?: string;\n  tags?: string[];\n  metadata?: Record<string, any>;\n\x7d\n").toList

/-- `Zodirectus.writeFileSchemas` (lines 168-312): fetch `directus_files`
(traced) and write the generated or fallback content. -/
def writeFileSchemas (env : Env) : (Str × Str) × List Str :=
  let content :=
    match env.fieldsFor (("directus_files").toList) with
    | .ok fileFields => fileSchemasGenerated fileFields
    | .error _ => fileSchemasFallback
  (((("file-schemas.ts").toList), content), [("directus_files").toList])

/-- output file name of a collection: kebab-case of the singular PascalCase
name, with the `.ts` extension. -/
def fileNameOf (name : Str) : Str :=
  toKebabCase (toSingular (toPascalCase name)) ++ (".ts").toList

/-- first index at which `pat` occurs in `w`. -/
def findSubIdx : Str → Str → Option Nat
  | w, pat =>
    if leadsWith w pat then some 0
    else
      match w with
      | [] => none
      | _ :: t =>
        match findSubIdx t pat with
        | some i => some (i + 1)
        | none => none

/-- regex `/z\.object\(\{[\s\S]*?\}\)/`: from the first `z.object({` to the
first following `})`, inclusive. -/
def objectBlockOf (schema : Str) : Option Str :=
  match findSubIdx schema (("z.object(\x7b").toList) with
  | none => none
  | some i =>
    let after := schema.drop i
    match findSubIdx (after.drop 10) (("\x7d)").toList) with
    | none => none
    | some j => some (after.take (10 + j + 2))

/-- `Zodirectus.isCircularDependency` (lines 682-689). -/
def isCircularDependency (a b : Str) (circularDeps : List (List Str)) : Bool :=
  circularDeps.any fun cycle => a ∈ cycle && b ∈ cycle

/-- related collections referenced by one result's schema/type, in insertion
order (src/unnamed/part_003, lines 477-517). -/
def relatedCollectionsOf (r : GeneratedSchema) : List Str :=
  let selfSingular := toSingular (toPascalCase r.collectionName)
  let fromSchema :=
    match r.schema with
    | some schema =>
      match objectBlockOf schema with
      | some block =>
        (scanDrx block).foldl
          (fun acc m =>
            let singularName :=
              replaceFirst (replaceFirst m ("Drx".toList) []) ("Schema".toList) []
            if singularName ≠ selfSingular && singularName ≠ ("File").toList &&
                singularName ≠ ("ImageFile").toList then
              depAdd acc singularName
            else acc)
          []
      | none => []
    | none => []
  match r.type with
  | some ty =>
    (scanDrs ty).foldl
      (fun acc m =>
        let singularName := replaceFirst m ("Drs".toList) []
        if !trailsWith singularName ("Create").toList &&
            !trailsWith singularName ("Update").toList &&
            !trailsWith singularName ("Get").toList &&
            singularName ≠ ("File").toList &&
            singularName ≠ ("ImageFile").toList &&
            singularName ≠ selfSingular then
          depAdd acc singularName
        else acc)
      fromSchema
  | none => fromSchema

/-- import lines for the related collections of one result
(src/unnamed/part_003, lines 529-576), with the duplicate-import guard; the
circular and non-circular branches of the source emit the same line and are
kept as the same conditional. -/
def relatedImportsOf (results : List GeneratedSchema)
    (circularDeps : List (List Str)) (r : GeneratedSchema) : Str :=
  let currentCollectionName := toSingular (toPascalCase r.collectionName)
  ((relatedCollectionsOf r).foldl
    (fun acc singularName =>
      match results.find? (fun r' =>
          toSingular (toPascalCase r'.collectionName) = singularName ||
          toSingular (toPascalCase
            (replaceFirst r'.collectionName ("directus_").toList [])) =
              singularName) with
      | some relatedCollection =>
        let relatedFileName :=
          toKebabCase (toSingular (toPascalCase relatedCollection.collectionName))
        let isSystemCollection :=
          leadsWith relatedCollection.collectionName ("directus_").toList
        let baseSingularName := replaceFirst singularName ("Directus").toList []
        let schemaName :=
          if isSystemCollection then
            ("DrxDirectus").toList ++ baseSingularName ++ ("Schema").toList
          else ("Drx").toList ++ baseSingularName ++ ("Schema").toList
        let typeName :=
          if isSystemCollection then
            ("DrsDirectus").toList ++ baseSingularName
          else ("Drs").toList ++ baseSingularName
        let isCircular :=
          isCircularDependency currentCollectionName singularName circularDeps
        let importKey := schemaName ++ (":").toList ++ relatedFileName
        if importKey ∈ acc.1 then acc
        else
          let line :=
            if isCircular then
              ("import \x7b ").toList ++ schemaName ++ (", type ").toList ++
                typeName ++ (" \x7d from './").toList ++ relatedFileName ++
                ("';\n").toList
            else
              ("import \x7b ").toList ++ schemaName ++ (", type ").toList ++
                typeName ++ (" \x7d from './").toList ++ relatedFileName ++
                ("';\n").toList
          (acc.1 ++ [importKey], acc.2 ++ line)
      | none => acc)
    (([] : List Str), ([] : Str))).2

/-- content of one collection's output file (src/unnamed/part_003, lines
474-593). -/
def collectionFileContent (results : List GeneratedSchema)
    (circularDeps : List (List Str)) (r : GeneratedSchema) : Str :=
  let fileContent : Str :=
    match r.schema with
    | some _ => ("import \x7b z \x7d from 'zod';\n").toList
    | none => []
  let fileContent :=
    match r.schema with
    | some schema =>
      if hasSub schema (("DrxFileSchema").toList) ||
          hasSub schema (("DrxImageFileSchema").toList) then
        fileContent ++
          ("import \x7b DrxFileSchema, DrxImageFileSchema, type DrsFile, type DrsImageFile \x7d from './file-schemas';\n").toList
      else fileContent
    | none => fileContent
  let fileContent := fileContent ++ relatedImportsOf results circularDeps r
  let fileContent :=
    if hasSub fileContent (("import").toList) then fileContent ++ ("\n").toList
    else fileContent
  let fileContent :=
    match r.schema with
    | some schema => fileContent ++ schema ++ ("\n\n").toList
    | none => fileContent
  match r.type with
  | some ty => fileContent ++ ty ++ ("\n").toList
  | none => fileContent

/-- `Zodirectus.writeFiles` (src/unnamed/part_003, lines 453-595): the shared
`file-schemas.ts` first, then one write per result, named by
`fileNameOf`; also returns the fetch-trace contribution. -/
def writeFiles (env : Env) (results : List GeneratedSchema) :
    List (Str × Str) × List Str :=
  let fsw := writeFileSchemas env
  let dependencyGraph := buildDependencyGraph results
  let circularDeps := detectCircularDependencies dependencyGraph
  (fsw.1 :: results.map (fun r =>
    (fileNameOf r.collectionName, collectionFileContent results circularDeps r)),
   fsw.2)

/-- the body of `generate` inside its try/catch (src/unnamed/part_003, lines
36-133). -/
def generateCore (env : Env) (cfg : ZodirectusConfig) : Except Str RunOut :=
  match env.authOk with
  | .error e => .error e
  | .ok _ =>
    match env.colls with
    | .error e => .error e
    | .ok collections =>
      let actual := actualCollectionsOf cfg collections
      let p := actual.foldl (mainStep env cfg) ([], [])
      let dependencyGraph := buildDependencyGraph p.1
      let circularDeps := detectCircularDependencies dependencyGraph
      match regenLoop env cfg circularDeps actual p.1 p.2 with
      | .error e => .error e
      | .ok q =>
        let w := writeFiles env q.1
        .ok ⟨q.1, q.2 ++ w.2, w.1⟩

/-- `Zodirectus.generate` (src/unnamed/part_003, lines 36-137): any escaping
error is wrapped in the `Failed to generate schemas:` message. -/
def generate (env : Env) (cfg : ZodirectusConfig) : Except Str RunOut :=
  match generateCore env cfg with
  | .ok out => .ok out
  | .error e => .error (("Failed to generate schemas: ").toList ++ e)

/-! Properties of the generate pipeline. -/

lemma attachType_pairs : ∀ (rs : List GeneratedSchema) (name ty : Str),
    ∀ r' ∈ (attachType rs name ty).2, ∃ r ∈ rs,
      r'.collectionName = r.collectionName ∧ r'.schema = r.schema := by
  intro rs
  induction rs with
  | nil => intro name ty r' h; simp [attachType] at h
  | cons r rest ih =>
    intro name ty r' h
    simp only [attachType] at h
    by_cases hn : r.collectionName = name
    · rw [if_pos hn] at h
      rcases List.mem_cons.mp h with rfl | h'
      · exact ⟨r, List.mem_cons_self r rest, rfl, rfl⟩
      · exact ⟨r', List.mem_cons_of_mem r h', rfl, rfl⟩
    · rw [if_neg hn] at h
      rcases List.mem_cons.mp h with rfl | h'
      · exact ⟨r', List.mem_cons_self r' rest, rfl, rfl⟩
      · obtain ⟨r0, hr0, he1, he2⟩ := ih name ty r' h'
        exact ⟨r0, List.mem_cons_of_mem r hr0, he1, he2⟩

lemma attachType_names : ∀ (rs : List GeneratedSchema) (name ty : Str),
    (attachType rs name ty).2.map GeneratedSchema.collectionName =
      rs.map GeneratedSchema.collectionName := by
  intro rs
  induction rs with
  | nil => intro name ty; simp [attachType]
  | cons r rest ih =>
    intro name ty
    simp only [attachType]
    by_cases hn : r.collectionName = name
    · rw [if_pos hn]
      simp [hn]
    · rw [if_neg hn]
      simp [ih]

/-- invariant of the main per-collection loop over name/schema pairs:
every result entry either came from the start accumulator or was freshly
created from a successful fetch of an iterated collection. -/
lemma mainFold_inv (env : Env) (cfg : ZodirectusConfig)
    (Q : Str → Option Str → Prop) :
    ∀ (l : List Str) (acc : List GeneratedSchema × List Str),
      (∀ r ∈ acc.1, Q r.collectionName r.schema) →
      (∀ name ∈ l, ∀ flds, env.fieldsFor name = .ok flds →
        Q name (some (generateSchema cfg ⟨name, flds⟩ false)) ∧ Q name none) →
      ∀ r ∈ (l.foldl (mainStep env cfg) acc).1, Q r.collectionName r.schema := by
  intro l
  induction l with
  | nil => intro acc hacc _ r hr; exact hacc r hr
  | cons c rest ih =>
    intro acc hacc hnew r hr
    rw [List.foldl_cons] at hr
    refine ih (mainStep env cfg acc c) ?_
      (fun n hn flds hf => hnew n (List.mem_cons_of_mem c hn) flds hf) r hr
    intro r' hr'
    simp only [mainStep] at hr'
    cases hfe : env.fieldsFor c with
    | error e => rw [hfe] at hr'; exact hacc r' hr'
    | ok flds =>
      rw [hfe] at hr'
      simp only at hr'
      have hQnew := hnew c (List.mem_cons_self c rest) flds hfe
      have hres1 : ∀ x ∈ (if cfg.generateSchemas then
          acc.1 ++ [⟨c, some (generateSchema cfg ⟨c, flds⟩ false), none⟩]
        else acc.1), Q x.collectionName x.schema := by
        intro x hx
        by_cases hgs : cfg.generateSchemas
        · rw [if_pos hgs] at hx
          rcases List.mem_append.mp hx with hx | hx
          · exact hacc x hx
          · simp only [List.mem_singleton] at hx
            rw [hx]
            exact hQnew.1
        · rw [if_neg hgs] at hx
          exact hacc x hx
      by_cases hgt : cfg.generateTypes
      · rw [if_pos hgt] at hr'
        by_cases hfound : (attachType (if cfg.generateSchemas then
            acc.1 ++ [⟨c, some (generateSchema cfg ⟨c, flds⟩ false), none⟩]
          else acc.1) c (generateType cfg ⟨c, flds⟩)).1 = true
        · rw [if_pos hfound] at hr'
          obtain ⟨r0, hr0, he1, he2⟩ := attachType_pairs _ _ _ r' hr'
          rw [he1, he2]
          exact hres1 r0 hr0
        · rw [if_neg hfound] at hr'
          rcases List.mem_append.mp hr' with hx | hx
          · exact hres1 r' hx
          · simp only [List.mem_singleton] at hx
            rw [hx]
            exact hQnew.2
      · rw [if_neg hgt] at hr'
        exact hres1 r' hr'

lemma mainFold_trace (env : Env) (cfg : ZodirectusConfig) :
    ∀ (l : List Str) (acc : List GeneratedSchema × List Str),
      (l.foldl (mainStep env cfg) acc).2 = acc.2 ++ l := by
  intro l
  induction l with
  | nil => intro acc; simp
  | cons c rest ih =>
    intro acc
    rw [List.foldl_cons, ih]
    have hstep : (mainStep env cfg acc c).2 = acc.2 ++ [c] := by
      simp only [mainStep]
      cases hfe : env.fieldsFor c <;> simp
    rw [hstep, List.append_assoc]
    rfl

lemma mainStep_count (env : Env) (cfg : ZodirectusConfig)
    (acc : List GeneratedSchema × List Str) (c name : Str) :
    List.count name ((mainStep env cfg acc c).1.map GeneratedSchema.collectionName) ≤
      List.count name (acc.1.map GeneratedSchema.collectionName) +
        (if name = c then 1 else 0) := by
  simp only [mainStep]
  cases hfe : env.fieldsFor c with
  | error e => simp
  | ok flds =>
    simp only
    have hres1 : List.count name ((if cfg.generateSchemas then
        acc.1 ++ [⟨c, some (generateSchema cfg ⟨c, flds⟩ false), none⟩]
      else acc.1).map GeneratedSchema.collectionName) ≤
        List.count name (acc.1.map GeneratedSchema.collectionName) +
          (if name = c then 1 else 0) := by
      by_cases hgs : cfg.generateSchemas
      · rw [if_pos hgs]
        simp only [List.map_append, List.map_cons, List.map_nil,
          List.count_append]
        have : List.count name [c] = if name = c then 1 else 0 := by
          by_cases h : name = c <;> simp [h, List.count_singleton', beq_iff_eq]
        omega
      · rw [if_neg hgs]
        omega
    by_cases hgt : cfg.generateTypes
    · rw [if_pos hgt]
      by_cases hfound : (attachType (if cfg.generateSchemas then
          acc.1 ++ [⟨c, some (generateSchema cfg ⟨c, flds⟩ false), none⟩]
        else acc.1) c (generateType cfg ⟨c, flds⟩)).1 = true
      · rw [if_pos hfound, attachType_names]
        exact hres1
      · rw [if_neg hfound]
        -- in this branch generateSchemas must be false (else the attach finds
        -- the entry just appended); bound both cases directly
        by_cases hgs : cfg.generateSchemas
        · exfalso
          apply hfound
          rw [if_pos hgs] at hfound ⊢
          clear hfound hres1
          induction acc.1 with
          | nil => simp [attachType]
          | cons r rest ihr =>
            simp only [List.cons_append, attachType]
            by_cases hn : r.collectionName = c
            · rw [if_pos hn]
            · rw [if_neg hn]
              exact ihr
        · rw [if_neg hgs] at hfound ⊢
          simp only [List.map_append, List.map_cons, List.map_nil,
            List.count_append]
          have : List.count name [c] = if name = c then 1 else 0 := by
            by_cases h : name = c <;> simp [h, List.count_singleton', beq_iff_eq]
          omega
    · rw [if_neg hgt]
      exact hres1

lemma mainFold_count (env : Env) (cfg : ZodirectusConfig) (name : Str) :
    ∀ (l : List Str) (acc : List GeneratedSchema × List Str),
      List.count name ((l.foldl (mainStep env cfg) acc).1.map
        GeneratedSchema.collectionName) ≤
      List.count name (acc.1.map GeneratedSchema.collectionName) +
        List.count name l := by
  intro l
  induction l with
  | nil => intro acc; simp
  | cons c rest ih =>
    intro acc
    rw [List.foldl_cons]
    have h1 := ih (mainStep env cfg acc c)
    have h2 := mainStep_count env cfg acc c name
    have h3 : List.count name (c :: rest) =
        (if name = c then 1 else 0) + List.count name rest := by
      by_cases h : name = c
      · simp [h, List.count_cons, beq_iff_eq]
        omega
      · simp [h, List.count_cons, beq_iff_eq]
    omega

/-- Boolean guard under which the regeneration pass rewrites an entry. -/
def regenGuard (cds : List (List Str)) (actual : List Str)
    (r : GeneratedSchema) : Bool :=
  r.schema.isSome && inCycleB cds r.collectionName &&
    decide (r.collectionName ∈ actual)

/-- the regeneration pass succeeds when every entry's collection can be
fetched, keeps collection names, rewrites exactly the guarded entries to
lazy-mode schemas, and appends at most one trace entry per result. -/
lemma regen_ok (env : Env) (cfg : ZodirectusConfig) (cds : List (List Str))
    (actual : List Str) :
    ∀ (results : List GeneratedSchema) (trace : List Str),
      (∀ r ∈ results, ∃ flds, env.fieldsFor r.collectionName = .ok flds) →
      ∃ rs tr, regenLoop env cfg cds actual results trace = .ok (rs, tr) ∧
        rs.map GeneratedSchema.collectionName =
          results.map GeneratedSchema.collectionName ∧
        (∀ r' ∈ rs, ∃ r, r ∈ results ∧ r'.collectionName = r.collectionName ∧
          r'.schema = (if regenGuard cds actual r = true then
            (env.fieldsFor r.collectionName).toOption.map
              (fun flds => generateSchema cfg ⟨r.collectionName, flds⟩ true)
          else r.schema)) := by
  intro results
  induction results with
  | nil =>
    intro trace _
    refine ⟨[], trace, by simp [regenLoop], rfl, ?_⟩
    intro r' h
    simp at h
  | cons r rest ih =>
    intro trace hall
    obtain ⟨flds, hflds⟩ := hall r (List.mem_cons_self r rest)
    have hrest : ∀ x ∈ rest, ∃ flds, env.fieldsFor x.collectionName = .ok flds :=
      fun x hx => hall x (List.mem_cons_of_mem r hx)
    have hkeep : ∃ r' trace', (match r.schema with
        | some _ =>
          if inCycleB cds r.collectionName then
            if r.collectionName ∈ actual then
              match env.fieldsFor r.collectionName with
              | .error e => .error e
              | .ok flds =>
                .ok (⟨r.collectionName,
                  some (generateSchema cfg ⟨r.collectionName, flds⟩ true), r.type⟩,
                  trace ++ [r.collectionName])
            else .ok (r, trace)
          else .ok (r, trace)
        | none => .ok (r, trace) :
          Except Str (GeneratedSchema × List Str)) = .ok (r', trace') ∧
        r'.collectionName = r.collectionName ∧
        r'.schema = (if regenGuard cds actual r = true then
          (env.fieldsFor r.collectionName).toOption.map
            (fun flds => generateSchema cfg ⟨r.collectionName, flds⟩ true)
        else r.schema) := by
      cases hsch : r.schema with
      | none =>
        refine ⟨r, trace, rfl, rfl, ?_⟩
        have hgf : regenGuard cds actual r = false := by
          simp [regenGuard, hsch]
        rw [hgf, if_neg (by simp)]
        exact hsch
      | some s0 =>
        by_cases hcyc : inCycleB cds r.collectionName = true
        · by_cases hmem : r.collectionName ∈ actual
          · refine ⟨⟨r.collectionName,
              some (generateSchema cfg ⟨r.collectionName, flds⟩ true), r.type⟩,
              trace ++ [r.collectionName], ?_, rfl, ?_⟩
            · rw [if_pos hcyc, if_pos hmem, hflds]
            · have hg : regenGuard cds actual r = true := by
                simp [regenGuard, hsch, hcyc, hmem]
              rw [hg, hflds]
              rfl
          · refine ⟨r, trace, by rw [if_pos hcyc, if_neg hmem], rfl, ?_⟩
            have hgf : regenGuard cds actual r = false := by
              simp [regenGuard, hmem]
            rw [hgf, if_neg (by simp)]
            exact hsch
        · refine ⟨r, trace, by rw [if_neg hcyc], rfl, ?_⟩
          have hgf : regenGuard cds actual r = false := by
            simp only [regenGuard, Bool.and_eq_false_iff]
            left
            right
            simpa using hcyc
          rw [hgf, if_neg (by simp)]
          exact hsch
    obtain ⟨r', trace', hkeepEq, hname', hschema'⟩ := hkeep
    obtain ⟨rs, tr, hreq, hnames, hchar⟩ := ih trace' hrest
    refine ⟨r' :: rs, tr, ?_, ?_, ?_⟩
    · show (match (match r.schema with
        | some _ =>
          if inCycleB cds r.collectionName then
            if r.collectionName ∈ actual then
              match env.fieldsFor r.collectionName with
              | .error e => .error e
              | .ok flds =>
                .ok (⟨r.collectionName,
                  some (generateSchema cfg ⟨r.collectionName, flds⟩ true), r.type⟩,
                  trace ++ [r.collectionName])
            else .ok (r, trace)
          else .ok (r, trace)
        | none => .ok (r, trace) :
          Except Str (GeneratedSchema × List Str)) with
        | Except.error e => (Except.error e : Except Str (List GeneratedSchema × List Str))
        | Except.ok p =>
          match regenLoop env cfg cds actual rest p.2 with
          | Except.error e => Except.error e
          | Except.ok q => Except.ok (p.1 :: q.1, q.2)) = Except.ok (r' :: rs, tr)
      rw [hkeepEq]
      simp only
      rw [hreq]
    · simp only [List.map_cons, hnames, hname']
    · intro x hx
      rcases List.mem_cons.mp hx with rfl | hx'
      · exact ⟨r, List.mem_cons_self r rest, hname', hschema'⟩
      · obtain ⟨r0, hr0, he1, he2⟩ := hchar x hx'
        exact ⟨r0, List.mem_cons_of_mem r hr0, he1, he2⟩

/-- trace growth of the regeneration pass: at most one fetch per entry. -/
lemma regen_count (env : Env) (cfg : ZodirectusConfig) (cds : List (List Str))
    (actual : List Str) (name : Str) :
    ∀ (results : List GeneratedSchema) (trace : List Str) rs tr,
      regenLoop env cfg cds actual results trace = .ok (rs, tr) →
      List.count name tr ≤ List.count name trace +
        List.count name (results.map GeneratedSchema.collectionName) := by
  intro results
  induction results with
  | nil =>
    intro trace rs tr h
    simp only [regenLoop] at h
    injection h with h
    injection h with _ h2
    rw [← h2]
    simp
  | cons r rest ih =>
    intro trace rs tr h
    simp only [regenLoop] at h
    have hone : ∀ (p : GeneratedSchema × List Str),
        (match r.schema with
          | some _ =>
            if inCycleB cds r.collectionName then
              if r.collectionName ∈ actual then
                match env.fieldsFor r.collectionName with
                | .error e => .error e
                | .ok flds =>
                  .ok (⟨r.collectionName,
                    some (generateSchema cfg ⟨r.collectionName, flds⟩ true),
                    r.type⟩, trace ++ [r.collectionName])
              else .ok (r, trace)
            else .ok (r, trace)
          | none => .ok (r, trace) :
            Except Str (GeneratedSchema × List Str)) = .ok p →
        List.count name p.2 ≤ List.count name trace +
          (if name = r.collectionName then 1 else 0) := by
      intro p hp
      have htriv : ∀ (q : GeneratedSchema × List Str),
          (Except.ok (ε := Str) (q.1, trace)) = .ok p →
          List.count name p.2 ≤ List.count name trace +
            (if name = r.collectionName then 1 else 0) := by
        intro q hq
        injection hq with hq
        rw [← hq]
        simp only
        omega
      cases hsch : r.schema with
      | none =>
        rw [hsch] at hp
        exact htriv (r, trace) hp
      | some s0 =>
        rw [hsch] at hp
        by_cases hcyc : inCycleB cds r.collectionName = true
        · rw [if_pos hcyc] at hp
          by_cases hmem : r.collectionName ∈ actual
          · rw [if_pos hmem] at hp
            cases hfe : env.fieldsFor r.collectionName with
            | error e => rw [hfe] at hp; exact absurd hp (by simp)
            | ok flds =>
              rw [hfe] at hp
              injection hp with hp
              rw [← hp]
              simp only [List.count_append]
              have : List.count name [r.collectionName] =
                  if name = r.collectionName then 1 else 0 := by
                by_cases h : name = r.collectionName <;>
                  simp [h, List.count_singleton', beq_iff_eq]
              omega
          · rw [if_neg hmem] at hp
            exact htriv (r, trace) hp
        · rw [if_neg hcyc] at hp
          exact htriv (r, trace) hp
    cases hkeep : (match r.schema with
      | some _ =>
        if inCycleB cds r.collectionName then
          if r.collectionName ∈ actual then
            match env.fieldsFor r.collectionName with
            | .error e => .error e
            | .ok flds =>
              .ok (⟨r.collectionName,
                some (generateSchema cfg ⟨r.collectionName, flds⟩ true),
                r.type⟩, trace ++ [r.collectionName])
          else .ok (r, trace)
        else .ok (r, trace)
      | none => .ok (r, trace) :
        Except Str (GeneratedSchema × List Str)) with
    | error e =>
      rw [hkeep] at h
      exact absurd h (by simp)
    | ok p =>
      rw [hkeep] at h
      simp only at h
      cases hrec : regenLoop env cfg cds actual rest p.2 with
      | error e => rw [hrec] at h; exact absurd h (by simp)
      | ok q =>
        rw [hrec] at h
        injection h with h
        injection h with h1 h2
        have hbound := ih p.2 q.1 q.2 hrec
        have hstep := hone p hkeep
        rw [← h2]
        simp only [List.map_cons]
        have hccons : List.count name
            (r.collectionName :: rest.map GeneratedSchema.collectionName) =
            (if name = r.collectionName then 1 else 0) +
              List.count name (rest.map GeneratedSchema.collectionName) := by
          by_cases hh : name = r.collectionName
          · simp [hh, List.count_cons]
            omega
          · simp [hh, List.count_cons, beq_iff_eq]
        omega

/-- decidable check that a successful run has no result entry for `name`
(and that the run did succeed). -/
def noEntryFor (res : Except Str RunOut) (name : Str) : Bool :=
  match res with
  | .ok out => out.results.all fun r => !(r.collectionName == name)
  | .error _ => false

/-- C5: a per-collection fetch failure only skips that collection (the run
succeeds and the collection has no entry in the results), while an
authentication or collection-listing failure aborts the whole run with the
wrapped `Failed to generate schemas` error. -/
theorem c5_error_handling (env : Env) (cfg : ZodirectusConfig) :
    (∀ e, env.authOk = .error e →
      generate env cfg = .error ((("Failed to generate schemas: ").toList ++ e))) ∧
    (∀ e, env.authOk = .ok () → env.colls = .error e →
      generate env cfg = .error ((("Failed to generate schemas: ").toList ++ e))) ∧
    (∀ name e cs, env.authOk = .ok () → env.colls = .ok cs →
      name ∈ actualCollectionsOf cfg cs → env.fieldsFor name = .error e →
      noEntryFor (generate env cfg) name = true) := by
  refine ⟨?_, ?_, ?_⟩
  · intro e ha
    unfold generate generateCore
    rw [ha]
  · intro e ha hc
    unfold generate generateCore
    rw [ha, hc]
  · intro name e cs ha hc hmem herr
    have hall : ∀ r ∈ ((actualCollectionsOf cfg cs).foldl (mainStep env cfg)
        ([], [])).1, ∃ flds, env.fieldsFor r.collectionName = .ok flds := by
      apply mainFold_inv env cfg
        (fun n _ => ∃ flds, env.fieldsFor n = .ok flds)
      · intro r hr
        simp at hr
      · intro n _ flds hf
        exact ⟨⟨flds, hf⟩, ⟨flds, hf⟩⟩
    obtain ⟨rs, tr, hreq, hnames, _⟩ :=
      regen_ok env cfg
        (detectCircularDependencies (buildDependencyGraph
          (((actualCollectionsOf cfg cs).foldl (mainStep env cfg) ([], [])).1)))
        (actualCollectionsOf cfg cs)
        (((actualCollectionsOf cfg cs).foldl (mainStep env cfg) ([], [])).1)
        (((actualCollectionsOf cfg cs).foldl (mainStep env cfg) ([], [])).2) hall
    unfold generate generateCore
    rw [ha, hc]
    simp only [hreq, noEntryFor, List.all_eq_true]
    intro r hr
    have hrn : r.collectionName ∈ rs.map GeneratedSchema.collectionName :=
      List.mem_map.mpr ⟨r, hr, rfl⟩
    rw [hnames] at hrn
    obtain ⟨r0, hr0, hr0n⟩ := List.mem_map.mp hrn
    obtain ⟨flds, hflds⟩ := hall r0 hr0
    simp only [Bool.not_eq_eq_eq_not, Bool.not_true, beq_eq_false_iff_ne, ne_eq]
    intro hcon
    rw [hcon] at hr0n
    rw [← hr0n] at herr
    rw [hflds] at herr
    exact absurd herr (by simp)

/-- C5 witness: the three clauses applied to concrete environments. -/
theorem c5_witness :
    generate ⟨.error (("auth down").toList), .ok [], fun _ => .error []⟩
        ⟨true, true, none, false, []⟩ =
      .error ((("Failed to generate schemas: ").toList ++
        ("auth down").toList)) ∧
    generate ⟨.ok (), .error (("listing down").toList), fun _ => .error []⟩
        ⟨true, true, none, false, []⟩ =
      .error ((("Failed to generate schemas: ").toList ++
        ("listing down").toList)) ∧
    noEntryFor (generate ⟨.ok (), .ok [("books").toList],
        fun _ => .error (("no access").toList)⟩ ⟨true, true, none, false, []⟩)
      (("books").toList) = true :=
  ⟨(c5_error_handling ⟨.error (("auth down").toList), .ok [], fun _ => .error []⟩
      ⟨true, true, none, false, []⟩).1 _ rfl,
   (c5_error_handling ⟨.ok (), .error (("listing down").toList),
      fun _ => .error []⟩ ⟨true, true, none, false, []⟩).2.1 _ rfl rfl,
   (c5_error_handling ⟨.ok (), .ok [("books").toList],
      fun _ => .error (("no access").toList)⟩ ⟨true, true, none, false, []⟩).2.2
     (("books").toList) (("no access").toList) [("books").toList] rfl rfl
     (by decide) rfl⟩

/-- number of times a collection was fetched in a successful run. -/
def fetchCountOf (res : Except Str RunOut) (name : Str) : Nat :=
  match res with
  | .ok out => List.count name out.fetched
  | .error _ => 0

theorem count_singleton_eq (a b : Str) :
    List.count a [b] = if a = b then 1 else 0 := by
  by_cases h : a = b
  · simp [h]
  · simp [List.count_cons, beq_iff_eq, h]

/-- fields of the `audit_sessions` collection of the C6 counterexample
environment: a plain uuid primary key plus an `o2m` alias field named after
the `audit_activity_logs` collection. -/
def c6SessFields : List DirectusField := [
  ⟨("id").toList, ("uuid").toList, some ⟨none, some true, none, none, none⟩,
    some ⟨some (("uuid").toList), some false, some true, none⟩⟩,
  ⟨("activity_logs").toList, ("alias").toList,
    some ⟨none, none, some [("o2m").toList], none, none⟩, none⟩]

/-- fields of the `audit_activity_logs` collection of the C6 counterexample
environment: a plain uuid primary key plus an `m2o` relation whose foreign
key table is `audit_sessions`, closing the dependency cycle. -/
def c6LogFields : List DirectusField := [
  ⟨("id").toList, ("uuid").toList, some ⟨none, some true, none, none, none⟩,
    some ⟨some (("uuid").toList), some false, some true, none⟩⟩,
  ⟨("session").toList, ("uuid").toList,
    some ⟨none, none, some [("m2o").toList], none, none⟩,
    some ⟨some (("uuid").toList), some true, none,
      some (("audit_sessions").toList)⟩⟩]

/-- a healthy service exposing the two mutually dependent audit
collections. -/
def c6Env : Env :=
  ⟨.ok (), .ok [("audit_sessions").toList, ("audit_activity_logs").toList],
   fun name =>
     if name = ("audit_sessions").toList then .ok c6SessFields
     else if name = ("audit_activity_logs").toList then .ok c6LogFields
     else .error (("no access").toList)⟩

def c6Cfg : ZodirectusConfig := ⟨true, false, none, false, []⟩

/-- a healthy service exposing no collections at all. -/
def c6wEnv : Env := ⟨.ok (), .ok [], fun _ => .error (("no access").toList)⟩

/-- the run output of `generate` on the empty service. -/
def c6wOut : RunOut :=
  ⟨[], (writeFiles c6wEnv []).2, (writeFiles c6wEnv []).1⟩

/-- C6 (amended): each collection's metadata is fetched at most twice per
occurrence in the filtered listing — once in the main pass and at most once
more in the regeneration pass — plus the single `directus_files` fetch of
`writeFiles`. -/
theorem c6_fetch_bound_amended (env : Env) (cfg : ZodirectusConfig)
    (cs : List Str) (out : RunOut) (name : Str)
    (ha : env.authOk = .ok ()) (hc : env.colls = .ok cs)
    (hg : generate env cfg = .ok out) :
    List.count name out.fetched ≤
      2 * List.count name (actualCollectionsOf cfg cs) +
        (if name = ("directus_files").toList then 1 else 0) := by
  unfold generate generateCore at hg
  rw [ha, hc] at hg
  simp only at hg
  cases hreg : regenLoop env cfg
      (detectCircularDependencies (buildDependencyGraph
        (((actualCollectionsOf cfg cs).foldl (mainStep env cfg) ([], [])).1)))
      (actualCollectionsOf cfg cs)
      (((actualCollectionsOf cfg cs).foldl (mainStep env cfg) ([], [])).1)
      (((actualCollectionsOf cfg cs).foldl (mainStep env cfg) ([], [])).2) with
  | error e =>
    rw [hreg] at hg
    exact absurd hg (by simp)
  | ok q =>
    rw [hreg] at hg
    simp only [Except.ok.injEq] at hg
    have hfetched : out.fetched = q.2 ++ [("directus_files").toList] := by
      rw [← hg]
      rfl
    have htr := mainFold_trace env cfg (actualCollectionsOf cfg cs) ([], [])
    have hcnt := regen_count env cfg
      (detectCircularDependencies (buildDependencyGraph
        (((actualCollectionsOf cfg cs).foldl (mainStep env cfg) ([], [])).1)))
      (actualCollectionsOf cfg cs) name
      (((actualCollectionsOf cfg cs).foldl (mainStep env cfg) ([], [])).1)
      (((actualCollectionsOf cfg cs).foldl (mainStep env cfg) ([], [])).2)
      q.1 q.2 hreg
    have hmain := mainFold_count env cfg name (actualCollectionsOf cfg cs) ([], [])
    rw [htr] at hcnt
    simp only [List.map_nil, List.count_nil, List.nil_append] at hcnt hmain
    rw [hfetched, List.count_append]
    have hdf := count_singleton_eq name (("directus_files").toList)
    omega

set_option maxRecDepth 100000 in
set_option maxHeartbeats 4000000 in
/-- C6 counterexample: on the two-collection audit environment whose
collections depend on each other, the run succeeds but `audit_sessions`'
field metadata is fetched twice — once in the main pass and once in the
regeneration pass — refuting the `at most once` part of the claim. -/
theorem c6_counterexample :
    fetchCountOf (generate c6Env c6Cfg) (("audit_sessions").toList) = 2 := by
  with_unfolding_all rfl

set_option maxRecDepth 100000 in
set_option maxHeartbeats 4000000 in
/-- C6 witness: the amended fetch bound applied to the concrete empty
service. -/
theorem c6_witness :
    List.count (("books").toList) c6wOut.fetched ≤
      2 * List.count (("books").toList) (actualCollectionsOf c6Cfg []) +
        (if ("books").toList = ("directus_files").toList then 1 else 0) :=
  c6_fetch_bound_amended c6wEnv c6Cfg [] c6wOut (("books").toList) rfl rfl
    (by with_unfolding_all rfl)

/-- C1: after the regeneration pass of a successful `generate` run, every
result entry that carries a schema text carries the lazy-mode text exactly
when its collection lies on a detected cycle of the dependency graph built
from the main pass, and the plain-mode text otherwise. -/
theorem c1_lazy_schema_selection (env : Env) (cfg : ZodirectusConfig)
    (cs : List Str) (out : RunOut) (r : GeneratedSchema) (s : Str)
    (ha : env.authOk = .ok ()) (hc : env.colls = .ok cs)
    (hg : generate env cfg = .ok out)
    (hr : r ∈ out.results) (hs : r.schema = some s) :
    ∃ flds, env.fieldsFor r.collectionName = .ok flds ∧
      s = (if inCycleB
            (detectCircularDependencies (buildDependencyGraph
              (((actualCollectionsOf cfg cs).foldl (mainStep env cfg)
                ([], [])).1)))
            r.collectionName = true
          then lazySchemaText cfg ⟨r.collectionName, flds⟩
          else plainSchemaText cfg ⟨r.collectionName, flds⟩) := by
  have hQ := mainFold_inv env cfg
    (fun n os => (∃ flds, env.fieldsFor n = .ok flds) ∧
      ∀ s0, os = some s0 → n ∈ actualCollectionsOf cfg cs ∧
        ∃ flds, env.fieldsFor n = .ok flds ∧
          s0 = generateSchema cfg ⟨n, flds⟩ false)
    (actualCollectionsOf cfg cs) ([], [])
    (fun r hr => absurd hr (List.not_mem_nil r))
    (fun name hn flds hf =>
      ⟨⟨⟨flds, hf⟩, fun s0 h => ⟨hn, flds, hf, (Option.some.inj h).symm⟩⟩,
       ⟨⟨flds, hf⟩, fun s0 h => nomatch h⟩⟩)
  obtain ⟨rs, tr, hreq, hnames, hchar⟩ := regen_ok env cfg
    (detectCircularDependencies (buildDependencyGraph
      (((actualCollectionsOf cfg cs).foldl (mainStep env cfg) ([], [])).1)))
    (actualCollectionsOf cfg cs)
    (((actualCollectionsOf cfg cs).foldl (mainStep env cfg) ([], [])).1)
    (((actualCollectionsOf cfg cs).foldl (mainStep env cfg) ([], [])).2)
    (fun x hx => (hQ x hx).1)
  unfold generate generateCore at hg
  rw [ha, hc] at hg
  simp only at hg
  rw [hreq] at hg
  simp only [Except.ok.injEq] at hg
  have hres : out.results = rs := by rw [← hg]
  rw [hres] at hr
  obtain ⟨r0, hr0, hname0, hschema0⟩ := hchar r hr
  by_cases hguard : regenGuard
      (detectCircularDependencies (buildDependencyGraph
        (((actualCollectionsOf cfg cs).foldl (mainStep env cfg) ([], [])).1)))
      (actualCollectionsOf cfg cs) r0 = true
  · rw [if_pos hguard] at hschema0
    have hconj := hguard
    simp only [regenGuard, Bool.and_eq_true, decide_eq_true_eq,
      Option.isSome_iff_exists] at hconj
    obtain ⟨⟨⟨s0, hs0eq⟩, hic⟩, hmem⟩ := hconj
    obtain ⟨_, flds, hflds, _⟩ := (hQ r0 hr0).2 s0 hs0eq
    rw [hflds] at hschema0
    simp only [Except.toOption, Option.map_some'] at hschema0
    rw [hs] at hschema0
    refine ⟨flds, by rw [hname0]; exact hflds, ?_⟩
    rw [hname0, if_pos hic]
    have := Option.some.inj hschema0
    rw [this]
    rfl
  · rw [if_neg hguard] at hschema0
    rw [hs] at hschema0
    obtain ⟨hmem, flds, hflds, hs0⟩ := (hQ r0 hr0).2 s hschema0.symm
    have hic : inCycleB
        (detectCircularDependencies (buildDependencyGraph
          (((actualCollectionsOf cfg cs).foldl (mainStep env cfg) ([], [])).1)))
        r0.collectionName = false := by
      cases hic0 : inCycleB
          (detectCircularDependencies (buildDependencyGraph
            (((actualCollectionsOf cfg cs).foldl (mainStep env cfg)
              ([], [])).1)))
          r0.collectionName with
      | false => rfl
      | true =>
        exact absurd (by
          simp only [regenGuard, ← hschema0, hic0, hmem, Option.isSome_some,
            Bool.true_and, Bool.and_true, decide_eq_true_eq]) hguard
    refine ⟨flds, by rw [hname0]; exact hflds, ?_⟩
    rw [hname0, if_neg (by simp [hic]), hs0]
    rfl

/-- the single field of the C1 witness environment's `books` collection. -/
def c1wFields : List DirectusField :=
  [⟨("title").toList, ("string").toList, none,
    some ⟨some (("varchar").toList), some false, none, none⟩⟩]

/-- a healthy service exposing the lone acyclic `books` collection. -/
def c1wEnv : Env :=
  ⟨.ok (), .ok [("books").toList],
   fun name =>
     if name = ("books").toList then .ok c1wFields
     else .error (("no access").toList)⟩

/-- the result entry the main pass produces for `books`. -/
def c1wRes : GeneratedSchema :=
  ⟨("books").toList,
   some (generateSchema c6Cfg ⟨("books").toList, c1wFields⟩ false), none⟩

/-- the full run output of `generate` on the `books` service. -/
def c1wOut : RunOut :=
  ⟨[c1wRes], [("books").toList, ("directus_files").toList],
   (writeFiles c1wEnv [c1wRes]).1⟩

set_option maxRecDepth 100000 in
set_option maxHeartbeats 4000000 in
/-- C1 witness: the lazy-selection theorem applied to the concrete `books`
run, whose lone collection lies on no cycle and therefore keeps the plain
schema text. -/
theorem c1_witness :
    ∃ flds, c1wEnv.fieldsFor c1wRes.collectionName = .ok flds ∧
      generateSchema c6Cfg ⟨("books").toList, c1wFields⟩ false =
        (if inCycleB
            (detectCircularDependencies (buildDependencyGraph
              (((actualCollectionsOf c6Cfg [("books").toList]).foldl
                (mainStep c1wEnv c6Cfg) ([], [])).1)))
            c1wRes.collectionName = true
         then lazySchemaText c6Cfg ⟨c1wRes.collectionName, flds⟩
         else plainSchemaText c6Cfg ⟨c1wRes.collectionName, flds⟩) :=
  c1_lazy_schema_selection c1wEnv c6Cfg [("books").toList] c1wOut c1wRes
    (generateSchema c6Cfg ⟨("books").toList, c1wFields⟩ false)
    rfl rfl (by with_unfolding_all rfl)
    (List.mem_singleton.mpr rfl) rfl

/-- C4 counterexample: two fields identical except for their names — both
`integer`, no meta (hence no special flags, no choices/options, no
interface) — receive different Zod types: the field named `timeout` is
captured by the name-sniffing date/time handler and becomes
`z.string().datetime()` instead of `z.number().int()`. -/
theorem c4_counterexample :
    getZodType ⟨true, true, none, false, []⟩
        ⟨("timeout").toList, ("integer").toList, none,
          some ⟨some (("integer").toList), none, none, none⟩⟩ ≠
      getZodType ⟨true, true, none, false, []⟩
        ⟨("count").toList, ("integer").toList, none,
          some ⟨some (("integer").toList), none, none, none⟩⟩ ∧
    getZodType ⟨true, true, none, false, []⟩
        ⟨("timeout").toList, ("integer").toList, none,
          some ⟨some (("integer").toList), none, none, none⟩⟩ =
      ("z.string().datetime()").toList := by
  constructor
  · decide
  · decide

/-- C4 (amended): for every field with no special flags, no choices/options,
no interface, and whose lowercased name does not contain `date` or `time` and
is not `ts`, the emitted Zod type is determined solely by the declared data
type (falling back to `field.type`) through the switch/lookup table
`zodSwitch` — in particular `boolean ↦ z.boolean()`,
`integer ↦ z.number().int()`, and unknown types without a custom mapping
`↦ z.string()`. -/
theorem c4_type_table_amended (cfg : ZodirectusConfig) (f : DirectusField)
    (hs : specialOf f = [])
    (hi : interfaceOf f = [])
    (hc : (optionsOf f).choices.getD [] = [])
    (ho : (optionsOf f).options.getD [] = [])
    (hnd : hasSub (lowerStr f.field) (("date").toList) = false)
    (hnt : hasSub (lowerStr f.field) (("time").toList) = false)
    (hnts : lowerStr f.field ≠ ("ts").toList) :
    getZodType cfg f = zodSwitch cfg (directusTypeOf f) := by
  have hFile : isFileField f = false := by
    simp [isFileField, hs, hi]
  have hRadio : isRadioButtonField f = false := by
    simp [isRadioButtonField, hi]
  have hDrop : isDropdownMultipleField f = false := by
    simp [isDropdownMultipleField, hi]
  have hTree : isCheckboxTreeField f = false := by
    simp [isCheckboxTreeField, hi]
  have hAuto : isAutocompleteField f = false := by
    simp [isAutocompleteField, hi]
  have hTag : isTagField f = false := by
    simp [isTagField, hs]
  have hRep : isRepeaterField f = false := by
    simp [isRepeaterField, hs]
  have hRel : isRelationField f = false := by
    simp [isRelationField, hs, hi, hasSub, leadsWith]
  by_cases hdt : isDateTimeField f = true
  · -- the data type itself is a date/time type; the date/time generator
    -- agrees with the switch on those types
    have hdt4 : directusTypeOf f = ("timestamp").toList ∨
        directusTypeOf f = ("datetime").toList ∨
        directusTypeOf f = ("date").toList ∨
        directusTypeOf f = ("time").toList := by
      by_contra hcon
      push_neg at hcon
      obtain ⟨n1, n2, n3, n4⟩ := hcon
      have m1 : ¬(directusTypeOf f =
          ('t' :: 'i' :: 'm' :: 'e' :: 's' :: 't' :: 'a' :: 'm' :: 'p' :: [])) := n1
      have m2 : ¬(directusTypeOf f =
          ('d' :: 'a' :: 't' :: 'e' :: 't' :: 'i' :: 'm' :: 'e' :: [])) := n2
      have m3 : ¬(directusTypeOf f = ('d' :: 'a' :: 't' :: 'e' :: [])) := n3
      have m4 : ¬(directusTypeOf f = ('t' :: 'i' :: 'm' :: 'e' :: [])) := n4
      have m5 : ¬(lowerStr f.field = ('t' :: 's' :: [])) := hnts
      have hfalse : isDateTimeField f = false := by
        simp only [isDateTimeField, hi, hnd, hnt]
        simp [m1, m2, m3, m4, m5]
      rw [hfalse] at hdt
      exact absurd hdt (by simp)
    have hname : lowerStr f.field ≠ ("date").toList ∧
        lowerStr f.field ≠ ("time").toList := by
      constructor
      · intro hcon
        rw [hcon] at hnd
        exact absurd hnd (by decide)
      · intro hcon
        rw [hcon] at hnt
        exact absurd hnt (by decide)
    have hstep : getZodType cfg f = generateDateTimeSchema f := by
      simp only [getZodType, hFile, hRadio, hDrop, hTree, hAuto, hTag, hRep, hdt,
        Bool.false_eq_true, if_false, if_true]
    rw [hstep]
    have hn1 : ¬(lowerStr f.field = ('d' :: 'a' :: 't' :: 'e' :: [])) := hname.1
    have hn2 : ¬(lowerStr f.field = ('t' :: 'i' :: 'm' :: 'e' :: [])) := hname.2
    rcases hdt4 with h | h | h | h <;>
      simp [generateDateTimeSchema, zodSwitch, h, hi, hn1, hn2]
  · have hdtf : isDateTimeField f = false := by
      rw [Bool.not_eq_true] at hdt
      exact hdt
    simp only [getZodType, hFile, hRadio, hDrop, hTree, hAuto, hTag, hRep, hdtf,
      hRel, hs, hc, ho, Bool.false_eq_true, if_false, List.length_nil,
      gt_iff_lt, lt_self_iff_false, List.not_mem_nil]
    simp

/-- C4 witness: the amended theorem applied to the concrete integer field
named `count`, whose type is the table entry `z.number().int()`. -/
theorem c4_witness :
    getZodType ⟨true, true, none, false, []⟩
        ⟨("count").toList, ("integer").toList, none,
          some ⟨some (("integer").toList), none, none, none⟩⟩ =
      zodSwitch ⟨true, true, none, false, []⟩
        (directusTypeOf
          ⟨("count").toList, ("integer").toList, none,
            some ⟨some (("integer").toList), none, none, none⟩⟩) :=
  c4_type_table_amended ⟨true, true, none, false, []⟩
    ⟨("count").toList, ("integer").toList, none,
      some ⟨some (("integer").toList), none, none, none⟩⟩
    (by decide) (by decide) rfl rfl (by decide) (by decide) (by decide)

/-- C7 counterexample: the word `"Base"` pluralises to `"Bases"`, which
`toSingular` truncates to `"Bas"`, so the round trip fails. -/
theorem c7_counterexample :
    toSingular (singularToPlural (("Base").toList)) ≠ ("Base").toList := by
  decide

/-- C7 (amended): for every nonempty word that does not end in `"ie"`, `"se"`,
`"she"`, `"che"`, `"xe"` or `"ze"`, `toSingular (singularToPlural word)` equals
`word`. -/
theorem c7_roundtrip_amended (w : Str) (hne : w ≠ [])
    (h1 : trailsWith w (['i', 'e'] : Str) = false)
    (h2 : trailsWith w (['s', 'e'] : Str) = false)
    (h3 : trailsWith w (['s', 'h', 'e'] : Str) = false)
    (h4 : trailsWith w (['c', 'h', 'e'] : Str) = false)
    (h5 : trailsWith w (['x', 'e'] : Str) = false)
    (h6 : trailsWith w (['z', 'e'] : Str) = false) :
    toSingular (singularToPlural w) = w := by
  unfold singularToPlural
  by_cases hY : trailsWith w litY = true
  · -- plural rule: drop the final 'y' and append "ies"
    obtain ⟨t, rfl⟩ := (trailsWith_iff litY w).1 hY
    rw [if_pos hY]
    have hd1 : dropEnd 1 (t ++ litY) = t := dropEnd_append t litY
    rw [hd1]
    unfold toSingular
    rw [if_pos (trailsWith_append t litIes)]
    have hd3 : dropEnd 3 (t ++ litIes) = t := dropEnd_append t litIes
    rw [hd3]
  · rw [if_neg hY]
    by_cases hE : (trailsWith w litS || trailsWith w litSh || trailsWith w litCh ||
        trailsWith w litX || trailsWith w litZ) = true
    · -- plural rule: append "es"
      rw [if_pos hE]
      -- the last character of w is 's', 'h', 'x' or 'z', hence not 'i'
      have hlast : w.getLast? = some 's' ∨ w.getLast? = some 'h' ∨
          w.getLast? = some 'x' ∨ w.getLast? = some 'z' := by
        simp only [Bool.or_eq_true] at hE
        rcases hE with ((((h | h) | h) | h) | h)
        · exact Or.inl (getLast?_of_trailsWith h (by simp [litS]))
        · exact Or.inr (Or.inl (getLast?_of_trailsWith h (by simp [litSh])))
        · exact Or.inr (Or.inl (getLast?_of_trailsWith h (by simp [litCh])))
        · exact Or.inr (Or.inr (Or.inl (getLast?_of_trailsWith h (by simp [litX]))))
        · exact Or.inr (Or.inr (Or.inr (getLast?_of_trailsWith h (by simp [litZ]))))
      have hnI : trailsWith (w ++ litEs) litIes = false := by
        by_contra hcon
        rw [Bool.not_eq_false] at hcon
        obtain ⟨u, hu⟩ := (trailsWith_iff litIes (w ++ litEs)).1 hcon
        have hw : w = u ++ (('i' : Char) :: []) :=
          List.append_cancel_right
            (show w ++ litEs = (u ++ (('i' : Char) :: [])) ++ litEs by
              rw [hu]; simp [litIes, litEs])
        have : w.getLast? = some 'i' := by rw [hw]; simp
        rcases hlast with h | h | h | h <;> rw [this] at h <;> simp at h
      unfold toSingular
      rw [if_neg (by simp [hnI])]
      have hSnd : (trailsWith (w ++ litEs) litSes || trailsWith (w ++ litEs) litShes ||
          trailsWith (w ++ litEs) litChes || trailsWith (w ++ litEs) litXes ||
          trailsWith (w ++ litEs) litZes) = true := by
        simp only [Bool.or_eq_true] at hE ⊢
        rcases hE with ((((h | h) | h) | h) | h)
        · obtain ⟨t, rfl⟩ := (trailsWith_iff litS w).1 h
          exact Or.inl (Or.inl (Or.inl (Or.inl
            (by rw [List.append_assoc]; exact trailsWith_append t litSes))))
        · obtain ⟨t, rfl⟩ := (trailsWith_iff litSh w).1 h
          exact Or.inl (Or.inl (Or.inl (Or.inr
            (by rw [List.append_assoc]; exact trailsWith_append t litShes))))
        · obtain ⟨t, rfl⟩ := (trailsWith_iff litCh w).1 h
          exact Or.inl (Or.inl (Or.inr
            (by rw [List.append_assoc]; exact trailsWith_append t litChes)))
        · obtain ⟨t, rfl⟩ := (trailsWith_iff litX w).1 h
          exact Or.inl (Or.inr
            (by rw [List.append_assoc]; exact trailsWith_append t litXes))
        · obtain ⟨t, rfl⟩ := (trailsWith_iff litZ w).1 h
          exact Or.inr (by rw [List.append_assoc]; exact trailsWith_append t litZes)
      rw [if_pos hSnd]
      exact dropEnd_append w litEs
    · -- plural rule: append "s"
      rw [if_neg hE]
      have hnI : trailsWith (w ++ litS) litIes = false := by
        by_contra hcon
        rw [Bool.not_eq_false] at hcon
        obtain ⟨u, hu⟩ := (trailsWith_iff litIes (w ++ litS)).1 hcon
        have : trailsWith w (['i', 'e'] : Str) = true := trailsWith_of_append_eq hu
        rw [h1] at this; exact absurd this (by simp)
      have hnSes : trailsWith (w ++ litS) litSes = false := by
        by_contra hcon
        rw [Bool.not_eq_false] at hcon
        obtain ⟨u, hu⟩ := (trailsWith_iff litSes (w ++ litS)).1 hcon
        have : trailsWith w (['s', 'e'] : Str) = true := trailsWith_of_append_eq hu
        rw [h2] at this; exact absurd this (by simp)
      have hnShes : trailsWith (w ++ litS) litShes = false := by
        by_contra hcon
        rw [Bool.not_eq_false] at hcon
        obtain ⟨u, hu⟩ := (trailsWith_iff litShes (w ++ litS)).1 hcon
        have : trailsWith w (['s', 'h', 'e'] : Str) = true := trailsWith_of_append_eq hu
        rw [h3] at this; exact absurd this (by simp)
      have hnChes : trailsWith (w ++ litS) litChes = false := by
        by_contra hcon
        rw [Bool.not_eq_false] at hcon
        obtain ⟨u, hu⟩ := (trailsWith_iff litChes (w ++ litS)).1 hcon
        have : trailsWith w (['c', 'h', 'e'] : Str) = true := trailsWith_of_append_eq hu
        rw [h4] at this; exact absurd this (by simp)
      have hnXes : trailsWith (w ++ litS) litXes = false := by
        by_contra hcon
        rw [Bool.not_eq_false] at hcon
        obtain ⟨u, hu⟩ := (trailsWith_iff litXes (w ++ litS)).1 hcon
        have : trailsWith w (['x', 'e'] : Str) = true := trailsWith_of_append_eq hu
        rw [h5] at this; exact absurd this (by simp)
      have hnZes : trailsWith (w ++ litS) litZes = false := by
        by_contra hcon
        rw [Bool.not_eq_false] at hcon
        obtain ⟨u, hu⟩ := (trailsWith_iff litZes (w ++ litS)).1 hcon
        have : trailsWith w (['z', 'e'] : Str) = true := trailsWith_of_append_eq hu
        rw [h6] at this; exact absurd this (by simp)
      unfold toSingular
      rw [if_neg (by simp [hnI])]
      rw [if_neg (by simp [hnSes, hnShes, hnChes, hnXes, hnZes])]
      have hcond : (trailsWith (w ++ litS) litS && decide ((w ++ litS).length > 1)) =
          true := by
        rw [trailsWith_append w litS]
        simp only [Bool.true_and, decide_eq_true_eq, List.length_append]
        have : 1 ≤ w.length := List.length_pos.2 hne
        simp [litS]; omega
      rw [if_pos hcond]
      exact dropEnd_append w litS

/-- C7 witness: the amended round-trip theorem applied to the concrete word
`"Bank"`. -/
theorem c7_witness : toSingular (singularToPlural (("Bank").toList)) = ("Bank").toList :=
  c7_roundtrip_amended (("Bank").toList) (by decide) (by decide) (by decide)
    (by decide) (by decide) (by decide) (by decide)

lemma leadsWith_nil (w : Str) : leadsWith w [] = true := by
  cases w <;> rfl

lemma leadsWith_append (w s t : Str) (h : leadsWith w s = true) :
    leadsWith (w ++ t) s = true := by
  obtain ⟨u, rfl⟩ := (leadsWith_iff s w).mp h
  rw [List.append_assoc]
  exact (leadsWith_iff s _).mpr ⟨u ++ t, rfl⟩

lemma hasSub_append_left : ∀ (a b s : Str), hasSub a s = true →
    hasSub (a ++ b) s = true := by
  intro a
  induction a with
  | nil =>
    intro b s h
    simp only [hasSub, Bool.or_false] at h
    cases s with
    | nil =>
      rw [List.nil_append]
      cases b with
      | nil => exact h
      | cons x t => simp [hasSub, leadsWith_nil]
    | cons c s' => exact absurd h (by simp [leadsWith])
  | cons x t ih =>
    intro b s h
    rw [List.cons_append]
    simp only [hasSub, Bool.or_eq_true] at h ⊢
    rcases h with h | h
    · exact Or.inl (leadsWith_append _ _ _ h)
    · exact Or.inr (ih b s h)

lemma hasSub_append_right : ∀ (a b s : Str), hasSub b s = true →
    hasSub (a ++ b) s = true := by
  intro a
  induction a with
  | nil => intro b s h; simpa using h
  | cons x t ih =>
    intro b s h
    rw [List.cons_append]
    simp only [hasSub, Bool.or_eq_true]
    exact Or.inr (ih b s h)

set_option maxRecDepth 100000 in
set_option maxHeartbeats 4000000 in
/-- C3 counterexample: the distinct collections `bank` and `banks` are both
written to the file `bank.ts` — `writeFiles` emits the duplicated path list
`[file-schemas.ts, bank.ts, bank.ts]` — so distinct collections do not
always end up in distinct files. -/
theorem c3_counterexample :
    (("bank").toList : Str) ≠ ("banks").toList ∧
    (writeFiles ⟨.ok (), .ok [], fun _ => .error []⟩
        [⟨("bank").toList, none, none⟩,
         ⟨("banks").toList, none, none⟩]).1.map Prod.fst =
      [("file-schemas.ts").toList, ("bank.ts").toList, ("bank.ts").toList] ∧
    ¬ ([("file-schemas.ts").toList, ("bank.ts").toList,
        ("bank.ts").toList] : List Str).Nodup := by
  refine ⟨by decide, by with_unfolding_all rfl, by decide⟩

set_option maxRecDepth 40000 in
/-- C3 (amended): `writeFiles` writes exactly one output file per result —
named by the kebab-case of the singular PascalCase collection name plus
`.ts` — after the shared `file-schemas.ts`, whose content declares the
`DrxFileSchema` and `DrxImageFileSchema` file-object schemas in both the
generated and the fallback branch; the per-collection file names are not
necessarily distinct. -/
theorem c3_write_files_amended (env : Env) (results : List GeneratedSchema) :
    (writeFiles env results).1.map Prod.fst =
      ("file-schemas.ts").toList ::
        results.map (fun r => fileNameOf r.collectionName) ∧
    ∃ c, (writeFiles env results).1.head? =
        some ((("file-schemas.ts").toList), c) ∧
      hasSub c (("export const DrxFileSchema").toList) = true ∧
      hasSub c (("export const DrxImageFileSchema").toList) = true := by
  constructor
  · simp only [writeFiles, List.map_cons, List.map_map]
    rfl
  · cases hdf : env.fieldsFor (("directus_files").toList) with
    | ok fileFields =>
      refine ⟨fileSchemasGenerated fileFields, ?_, ?_, ?_⟩
      · simp only [writeFiles, List.head?_cons, writeFileSchemas, hdf]
      · unfold fileSchemasGenerated
        repeat apply hasSub_append_left
        decide
      · unfold fileSchemasGenerated
        apply hasSub_append_left
        apply hasSub_append_left
        apply hasSub_append_left
        apply hasSub_append_left
        apply hasSub_append_left
        apply hasSub_append_left
        apply hasSub_append_right
        decide
    | error e =>
      refine ⟨fileSchemasFallback, ?_, ?_, ?_⟩
      · simp only [writeFiles, List.head?_cons, writeFileSchemas, hdf]
      · unfold fileSchemasFallback
        repeat apply hasSub_append_left
        decide
      · unfold fileSchemasFallback
        apply hasSub_append_left
        apply hasSub_append_left
        apply hasSub_append_right
        decide

end Zodirectus
